import Mathlib

/-!
Shallow embedding of the balanced-news backend core: the tiered cache
(memory LRU tier + durable Redis tier) and the balanced source-selection
engine (`src/backend/src/feed.js`), together with theorems settling the
specification's claims.

Modelling conventions:
* JS numbers are modelled by `ℚ` (the code performs only field operations
  and comparisons on them); `Math.sqrt` is strictly monotone on
  nonnegatives, so every comparison of Euclidean distances in the code is
  mirrored faithfully by the same comparison of squared distances, which
  is what the embedding stores (`distSq`); the radius test
  `distance <= 2.0` becomes `distSq <= 4`.
* Timestamps (`Date.now()`) are naturals counting milliseconds and are
  passed explicitly (`now`).
* A JS `Map` is an association list in insertion order (head = oldest
  entry); `Map.set` on an existing key updates in place, otherwise
  appends, exactly as the JS iteration order behaves.
* Fallible operations against the durable tier are modelled by a failure
  flag on the state (`rfail`): when set, every Redis command throws, and
  the embedding takes the corresponding `catch` branch of the code.
-/

namespace NewsCore

/-! ### JS `Map` as an association list -/

/-- JS `Map.get`: the (unique) binding for `k`, if any. -/
def mapFind? {β : Type} (l : List (String × β)) (k : String) : Option β :=
  (l.find? (fun e => e.1 == k)).map (·.2)

/-- JS `Map.delete`: remove the binding for `k`. -/
def mapErase {β : Type} (l : List (String × β)) (k : String) : List (String × β) :=
  l.filter (fun e => e.1 != k)

/-- JS `Map.set`: update in place when the key is present (keeping its
position in iteration order), else append at the end. -/
def mapSet {β : Type} (l : List (String × β)) (k : String) (v : β) :
    List (String × β) :=
  if l.any (fun e => e.1 == k) then
    l.map (fun e => if e.1 == k then (k, v) else e)
  else l ++ [(k, v)]

/-! ### `MemoryCache` — the fast in-process LRU tier -/

/-- A fast-tier entry: stored value plus absolute expiration time in
milliseconds (`none` models a `null` expiry). -/
structure Entry where
  value : String
  expires : Option Nat
deriving DecidableEq

/-- The in-memory LRU cache: the backing `Map` and the size bound. -/
structure MemoryCache where
  cache : List (String × Entry)
  maxSize : Nat
deriving DecidableEq

/-- Embeds `item.expires && item.expires < now` — the lazy-expiry test used by
`MemoryCache.get` (a zero timestamp is falsy in JS, hence never expired). -/
def expiredLt (expires : Option Nat) (now : Nat) : Bool :=
  match expires with
  | some e => decide (e ≠ 0) && decide (e < now)
  | none => false

/-- Embeds `item.expires && item.expires <= now` — the sweep test used by
`MemoryCache.cleanup`. -/
def expiredLe (expires : Option Nat) (now : Nat) : Bool :=
  match expires with
  | some e => decide (e ≠ 0) && decide (e ≤ now)
  | none => false

/-- Embeds `MemoryCache.get`: a miss returns `null`; an expired entry is deleted
and reported as a miss; a live hit is promoted to most-recently-used
position (delete then re-insert) and its value returned. -/
def MemoryCache.get (c : MemoryCache) (now : Nat) (k : String) :
    Option String × MemoryCache :=
  match mapFind? c.cache k with
  | none => (none, c)
  | some item =>
    if expiredLt item.expires now then
      (none, { c with cache := mapErase c.cache k })
    else
      (some item.value, { c with cache := mapErase c.cache k ++ [(k, item)] })

/-- Embeds `MemoryCache.set`: evict the first (least-recently-used) key when the
cache is at capacity, then store the value with expiry `now + ttl*1000`
(`null` when `ttlSec` is falsy, i.e. absent or `0`). -/
def MemoryCache.set (c : MemoryCache) (now : Nat) (k : String) (v : String)
    (ttlSec : Option Nat) : MemoryCache :=
  let l₁ :=
    if c.cache.length ≥ c.maxSize then
      match c.cache with
      | [] => c.cache
      | e :: _ => mapErase c.cache e.1
    else c.cache
  let expires : Option Nat :=
    match ttlSec with
    | some t => if t = 0 then none else some (now + t * 1000)
    | none => none
  { c with cache := mapSet l₁ k ⟨v, expires⟩ }

/-- Embeds `MemoryCache.delete`: remove the key, reporting whether it was present. -/
def MemoryCache.delete (c : MemoryCache) (k : String) : Bool × MemoryCache :=
  (c.cache.any (fun e => e.1 == k), { c with cache := mapErase c.cache k })

/-- Embeds `MemoryCache.clear`. -/
def MemoryCache.clear (c : MemoryCache) : MemoryCache :=
  { c with cache := [] }

/-- Embeds `MemoryCache.size`. -/
def MemoryCache.size (c : MemoryCache) : Nat := c.cache.length

/-- Embeds `MemoryCache.cleanup`: sweep every entry whose expiry has passed,
returning how many were removed. -/
def MemoryCache.cleanup (c : MemoryCache) (now : Nat) : Nat × MemoryCache :=
  ((c.cache.filter (fun e => expiredLe e.2.expires now)).length,
   { c with cache := c.cache.filter (fun e => !expiredLe e.2.expires now) })

/-! ### Glob patterns

`clearCache` matches keys with `client.keys(pattern)` on the durable tier
(anchored glob) and with `new RegExp(pattern.replace(/\*`/g, '.*')).test(key)`
on the fast tier (an unanchored regex search).  The repository only ever
builds patterns from literal characters and `*`, for which the unanchored
regex search coincides with anchored glob matching of `"*" ++ pattern ++ "*"`.
-/

/-- Anchored glob matching over character lists: `*` matches any run of
characters (the pattern tail must match some suffix of the string); every
other character matches itself. -/
def globChars : List Char → List Char → Bool
  | [], s => s.isEmpty
  | p :: ps, s =>
    if p = '*' then s.tails.any (fun t => globChars ps t)
    else
      match s with
      | [] => false
      | c :: s₁ => (p == c) && globChars ps s₁

/-- Anchored glob matching on strings — the durable tier's `KEYS pattern`. -/
def globMatch (p k : String) : Bool := globChars p.data k.data

/-- The fast tier's pattern test: the unanchored regex obtained from the
glob pattern, i.e. glob matching with a free prefix and suffix. -/
def regexTest (p k : String) : Bool := globMatch ("*" ++ p ++ "*") k

/-- The key list of the fast tier, in recency order (head = least
recently used, last = most recently used). -/
def MemoryCache.keys (c : MemoryCache) : List String := c.cache.map (·.1)

/-- One fast-tier operation, for stating state invariants over arbitrary
operation sequences. -/
inductive CacheOp
  | get (now : Nat) (k : String)
  | set (now : Nat) (k : String) (v : String) (ttl : Option Nat)
  | del (k : String)
  | clear
  | cleanup (now : Nat)
deriving DecidableEq

/-- Apply one fast-tier operation to the cache (dropping returned values). -/
def applyOp (c : MemoryCache) : CacheOp → MemoryCache
  | .get now k => (c.get now k).2
  | .set now k v ttl => c.set now k v ttl
  | .del k => (c.delete k).2
  | .clear => c.clear
  | .cleanup now => (c.cleanup now).2

/-! ### The tiered cache -/

/-- A durable-tier (Redis) binding: value plus optional absolute expiry in
milliseconds (set through the `EX` option of `SET`). -/
structure RVal where
  value : String
  expires : Option Nat
deriving DecidableEq

/-- The tiered-cache state.  `connected` models `isRedisConnected && client`;
`rfail` models a durable tier that currently fails (throws on) every
command, driving the code's `catch` branches; `rstore` is the durable
tier's contents when commands succeed. -/
structure CacheState where
  connected : Bool
  rfail : Bool
  rstore : List (String × RVal)
  mem : MemoryCache
deriving DecidableEq

/-- A durable-tier read: an entry whose expiry has passed is absent. -/
def redisLookup (l : List (String × RVal)) (now : Nat) (k : String) :
    Option String :=
  match mapFind? l k with
  | none => none
  | some rv =>
    match rv.expires with
    | some e => if e ≤ now then none else some rv.value
    | none => some rv.value

/-- A durable-tier write: `SET key value EX ttl`. -/
def redisSet (l : List (String × RVal)) (now : Nat) (k : String) (v : String)
    (ttlSec : Option Nat) : List (String × RVal) :=
  mapSet l k ⟨v, ttlSec.map (fun t => now + t * 1000)⟩

/-- The shared tail of `getCache`: consult the fast tier. -/
def memFallbackGet (st : CacheState) (now : Nat) (k : String) :
    Option String × CacheState :=
  let r := st.mem.get now k
  (r.1, { st with mem := r.2 })

/-- Embeds `getCache`: try the durable tier first while healthy — a durable hit is
returned without touching the fast tier; a durable failure drops the health
flag and falls through; a durable miss, an unhealthy tier, or no tier at
all consults the fast tier. -/
def getCache (st : CacheState) (now : Nat) (k : String) :
    Option String × CacheState :=
  if st.connected then
    if st.rfail then
      memFallbackGet { st with connected := false } now k
    else
      match redisLookup st.rstore now k with
      | some v => (some v, st)
      | none => memFallbackGet st now k
  else
    memFallbackGet st now k

/-- Embeds `setCache`: reject a falsy key (the empty string) or an `undefined`
value (`v = none`); otherwise write through the durable tier when healthy
(a failure there only drops the health flag) and always also write the
fast tier, reporting success. -/
def setCache (st : CacheState) (now : Nat) (k : String) (v : Option String)
    (ttlSec : Option Nat) : Bool × CacheState :=
  if k = "" ∨ v = none then
    (false, st)
  else
    let val := v.getD ""
    if st.connected then
      if st.rfail then
        (true, { st with connected := false, mem := st.mem.set now k val ttlSec })
      else
        (true, { st with rstore := redisSet st.rstore now k val ttlSec,
                         mem := st.mem.set now k val ttlSec })
    else
      (true, { st with mem := st.mem.set now k val ttlSec })

/-- Embeds `deleteCache`: delete from the durable tier when healthy (a failure is
caught and only logged), then from the fast tier; report whether either
tier held the key. -/
def deleteCache (st : CacheState) (k : String) : Bool × CacheState :=
  let r₁ :=
    if st.connected then
      if st.rfail then (false, st)
      else ((mapFind? st.rstore k).isSome, { st with rstore := mapErase st.rstore k })
    else (false, st)
  let r₂ := r₁.2.mem.delete k
  (r₁.1 || r₂.1, { r₁.2 with mem := r₂.2 })

/-- Embeds `clearCache`: the durable tier is touched only when it is healthy AND a
pattern was given (`if (isRedisConnected && client && pattern)`), deleting
its glob-matching keys; the fast tier then drops keys matching the
unanchored regex, or is fully cleared when no pattern was given. -/
def clearCache (st : CacheState) (pattern : Option String) : Nat × CacheState :=
  let r₁ : Nat × CacheState :=
    match pattern with
    | some p =>
      if st.connected then
        if st.rfail then (0, st)
        else
          ((st.rstore.filter (fun e => globMatch p e.1)).length,
           { st with rstore := st.rstore.filter (fun e => !globMatch p e.1) })
      else (0, st)
    | none => (0, st)
  match pattern with
  | some p =>
    (r₁.1 + (r₁.2.mem.cache.filter (fun e => regexTest p e.1)).length,
     { r₁.2 with mem := { r₁.2.mem with
        cache := r₁.2.mem.cache.filter (fun e => !regexTest p e.1) } })
  | none =>
    (r₁.1 + r₁.2.mem.size, { r₁.2 with mem := r₁.2.mem.clear })

/-- Embeds `clearExpiredCache`: sweep the fast tier. -/
def clearExpiredCache (st : CacheState) (now : Nat) : Nat × CacheState :=
  let r := st.mem.cleanup now
  (r.1, { st with mem := r.2 })

/-! ### The source catalog and balanced selection (`feed.js`) -/

/-- A catalog record after validation gave the optional fields their
defaults (`category`, `active`). -/
structure Source where
  id : String
  name : String
  x : ℚ
  y : ℚ
  category : String
  active : Bool
deriving DecidableEq

/-- Embeds `getDefaultSources` — the hardcoded fallback catalog. -/
def getDefaultSources : List Source :=
  [ ⟨"bbc-news", "BBC News", -0.2, 0.1, "general", true⟩,
    ⟨"cnn", "CNN", -0.5, 0.3, "general", true⟩,
    ⟨"fox-news", "Fox News", 0.7, -0.2, "general", true⟩,
    ⟨"reuters", "Reuters", 0.1, 0.4, "general", true⟩,
    ⟨"associated-press", "Associated Press", 0, 0.2, "general", true⟩,
    ⟨"usa-today", "USA Today", 0, 0, "general", true⟩ ]

/-- Squared Euclidean distance — `calculateDistance` squared.  The code
compares and sorts `Math.sqrt` values; `sqrt` is strictly monotone on
nonnegatives, so all comparisons are mirrored on squares (`<= 2.0`
becomes `<= 4`). -/
def calcDistSq (px py qx qy : ℚ) : ℚ := (px - qx) ^ 2 + (py - qy) ^ 2

/-- A candidate produced inside `findClosestSources`: the source spread
together with its distance (kept squared here). -/
structure Candidate where
  src : Source
  distSq : ℚ
deriving DecidableEq

/-- The candidate filter of `findClosestSources`: not excluded, matching
the category filter when one is given, and active. -/
def candOk (excludeIds : List String) (categoryFilter : Option String)
    (s : Source) : Bool :=
  (!(excludeIds.contains s.id) &&
   (match categoryFilter with
    | some c => s.category == c
    | none => true)) &&
  s.active

/-- The candidate list of `findClosestSources`: filter, attach squared
distances, and keep candidates within the search radius
(`MAX_SEARCH_RADIUS = 2.0`, i.e. `distSq ≤ 4`). -/
def candList (sources : List Source) (x y : ℚ)
    (excludeIds : List String) (categoryFilter : Option String) :
    List Candidate :=
  ((sources.filter (candOk excludeIds categoryFilter)).map
    (fun s => Candidate.mk s (calcDistSq x y s.x s.y))).filter
    (fun c => decide (c.distSq ≤ 4))

/-- Embeds `findClosestSources`: keep active, non-excluded,
category-matching sources within the search radius, sort ascending by
distance (JS `sort` is stable; `insertionSort` with `≤` is the stable
sort), take the first `n`.  The coordinates are numbers by the time this
runs (its only caller validated them), so the function's `try/catch`
never fires and is not modelled. -/
def findClosestSources (sources : List Source) (x y : ℚ) (n : Nat)
    (excludeIds : List String) (categoryFilter : Option String) :
    List Candidate :=
  ((candList sources x y excludeIds categoryFilter).insertionSort
    (fun a b => a.distSq ≤ b.distSq)).take n

/-- The `side` tag attached to each selection. -/
inductive Side
  | friendly
  | opposing
  | neutral
deriving DecidableEq

/-- An entry of the combined selection list inside `pickSources`
(candidate plus `side`, plus `isFallback`, which is absent — hence
falsy — on friendly/opposing entries). -/
structure Selected where
  src : Source
  distSq : ℚ
  side : Side
  isFallback : Bool
deriving DecidableEq

/-- ASCII lower-casing of one character, as `toLowerCase` acts on the
ASCII source names of the catalog. -/
def lowerChar (c : Char) : Char :=
  if 'A' ≤ c ∧ c ≤ 'Z' then Char.ofNat (c.toNat + 32) else c

/-- Whitespace for the purposes of `\s` and `trim` on the catalog's ASCII
names. -/
def wsChar (c : Char) : Bool :=
  c = ' ' || c = '\t' || c = '\n' || c = '\r'

/-- Drop leading whitespace. -/
def trimLeftChars (l : List Char) : List Char := l.dropWhile wsChar

/-- Drop trailing whitespace. -/
def trimRightChars (l : List Char) : List Char :=
  (l.reverse.dropWhile wsChar).reverse

/-- Embeds `extractOrganization`: lower-case, strip one trailing
`\s+(news|media|network|corporation|inc|corp|llc)` group, strip one
leading `(the|a|an)\s+` group, trim.  (String scanning is carried out on
the character list so that the function evaluates inside the kernel; the
regex groups are realised as suffix/prefix matches preceded/followed by
at least one whitespace character, exactly the strings the anchored
regexes match.) -/
def extractOrganization (sourceName : String) : String :=
  let s := sourceName.data.map lowerChar
  let s :=
    match (["news", "media", "network", "corporation", "inc", "corp", "llc"]
        : List String).find? (fun suf =>
          suf.data.isSuffixOf s &&
          (let r := s.take (s.length - suf.data.length)
           trimRightChars r != r)) with
    | some suf => trimRightChars (s.take (s.length - suf.data.length))
    | none => s
  let s :=
    match (["the", "a", "an"] : List String).find? (fun art =>
        art.data.isPrefixOf s &&
        (let r := s.drop art.data.length
         trimLeftChars r != r)) with
    | some art => trimLeftChars (s.drop art.data.length)
    | none => s
  String.mk (trimLeftChars (trimRightChars s))

/-- The diversity key `${orgKey}:${categoryKey}` (a falsy — empty —
category falls back to `'general'`). -/
def diversityKey (s : Selected) : String :=
  extractOrganization s.src.name ++ ":" ++
    (if s.src.category = "" then "general" else s.src.category)

/-- First loop of `ensureSourceDiversity`: greedily keep one entry per
diversity key, except that the first two picks are always kept. -/
def diversityFirstPass : List Selected → List String → List Selected → List Selected
  | [], _, diverse => diverse
  | s :: rest, seen, diverse =>
    let key := diversityKey s
    if !(seen.contains key) || diverse.length < 2 then
      diversityFirstPass rest (key :: seen) (diverse ++ [s])
    else
      diversityFirstPass rest seen diverse

/-- Second loop of `ensureSourceDiversity`: refill remaining slots with
skipped entries (by id), stopping (`break`) once the original length is
reached. -/
def diversityFill (n : Nat) : List Selected → List Selected → List Selected
  | [], diverse => diverse
  | s :: rest, diverse =>
    if diverse.length ≥ n then diverse
    else if (diverse.find? (fun d => d.src.id == s.src.id)).isSome then
      diversityFill n rest diverse
    else
      diversityFill n rest (diverse ++ [s])

/-- Embeds `ensureSourceDiversity`. -/
def ensureSourceDiversity (sources : List Selected) : List Selected :=
  diversityFill sources.length sources (diversityFirstPass sources [] [])

/-- A JS value arriving as a bias coordinate: a number, or anything that
fails `typeof x === 'number'`. -/
inductive JVal
  | num (q : ℚ)
  | nonnum
deriving DecidableEq

/-- The options object of `pickSources`, with its defaults.
`fillRemaining` models `fallbackStrategy === 'fill_remaining'`. -/
structure PickOptions where
  friendlyCount : Nat := 2
  opposingCount : Nat := 2
  categoryFilter : Option String := none
  ensureDiversity : Bool := true
  fillRemaining : Bool := true
deriving DecidableEq

/-- The shape of an entry returned by `pickSources` (the final mapping, or
an emergency-fallback entry; fields a branch leaves undefined are
falsy, i.e. `false` here). -/
structure Picked where
  id : String
  name : String
  side : Side
  x : ℚ
  y : ℚ
  distSq : ℚ
  category : String
  isFallback : Bool
  isEmergencyFallback : Bool
deriving DecidableEq

/-- Embeds `getEmergencyFallbackSources`: the first 4 default sources, sides
`friendly, friendly, opposing, opposing`, distance 0, all marked
`isFallback` (and `isEmergencyFallback`). -/
def getEmergencyFallbackSources : List Picked :=
  (getDefaultSources.take 4).enum.map (fun p =>
    Picked.mk p.2.id p.2.name (if p.1 < 2 then .friendly else .opposing)
      p.2.x p.2.y 0 p.2.category true true)

/-- The selection pipeline of `pickSources` on a loaded catalog, once
both coordinates are numbers: friendly picks, opposing picks from the
mirrored point excluding used ids, the neutral fill-remaining fallback
from the origin, the diversity pass, truncation and the final mapping. -/
def pickNumCore (srcs : List Source) (x y : ℚ) (opts : PickOptions) :
    List Picked :=
  let friendly :=
    findClosestSources srcs x y opts.friendlyCount [] opts.categoryFilter
  let usedIds := friendly.map (fun c => c.src.id)
  let opposing :=
    findClosestSources srcs (-x) (-y) opts.opposingCount usedIds
      opts.categoryFilter
  let combined :=
    friendly.map (fun c => Selected.mk c.src c.distSq .friendly false) ++
    opposing.map (fun c => Selected.mk c.src c.distSq .opposing false)
  let totalRequested := opts.friendlyCount + opts.opposingCount
  let afterFill :=
    if combined.length < totalRequested ∧ opts.fillRemaining then
      let remainingCount := totalRequested - combined.length
      let allUsedIds := combined.map (fun s => s.src.id)
      let fallbackSources :=
        findClosestSources srcs 0 0 remainingCount allUsedIds
          opts.categoryFilter
      combined ++
        fallbackSources.map (fun c => Selected.mk c.src c.distSq .neutral true)
    else combined
  let afterDiversity :=
    if opts.ensureDiversity ∧ afterFill.length > 1 then
      ensureSourceDiversity afterFill
    else afterFill
  (afterDiversity.take totalRequested).map (fun s =>
    Picked.mk s.src.id s.src.name s.side s.src.x s.src.y s.distSq
      s.src.category s.isFallback false)

/-- The `try` body after coordinate validation.  In
`if (sources.length === 0) loadSources()`, re-loading reads the catalog
file, which is outside the embedded state; its failure branch substitutes
the built-in defaults, which is how the branch is modelled.  Every
theorem below either supplies a non-empty catalog or throws before this
point, so the branch is never exercised. -/
def pickNum (catalog : List Source) (x y : ℚ) (opts : PickOptions) :
    List Picked :=
  pickNumCore (if catalog.isEmpty then getDefaultSources else catalog)
    x y opts

/-- The `try` body of `pickSources`; `Except.error` is a thrown
exception. -/
def pickSourcesBody (catalog : List Source) (jx jy : JVal)
    (opts : PickOptions) : Except String (List Picked) :=
  match jx, jy with
  | .num x, .num y => Except.ok (pickNum catalog x y opts)
  | _, _ => Except.error "Invalid bias coordinates"

/-- Embeds `pickSources`: the body's result, with any thrown exception caught and
converted to the emergency fallback list. -/
def pickSources (catalog : List Source) (jx jy : JVal)
    (opts : PickOptions) : List Picked :=
  match pickSourcesBody catalog jx jy opts with
  | .ok r => r
  | .error _ => getEmergencyFallbackSources

/-! ### The `/feed` endpoint handler -/

/-- A provider article as consumed by the handler.  `sourceId` is
`a.source && a.source.id` (`none` when the source object or its id is
missing). -/
structure Article where
  sourceId : Option String
  title : String
  url : String
  urlToImage : String
  publishedAt : String
  description : String
deriving DecidableEq

/-- A feed card as built by the handler (the fallback-matched variant
additionally carries `isFallback: true`; the field is absent — falsy — on
direct matches). -/
structure FeedCard where
  articleId : String
  title : String
  sourceId : String
  sourceName : String
  imageUrl : String
  url : String
  publishedAt : String
  side : Side
  description : String
  isFallback : Bool
deriving DecidableEq

/-- Build one card from a source and an article. -/
def mkCard (src : Picked) (art : Article) (fallback : Bool) : FeedCard :=
  ⟨art.url, art.title, src.id, src.name, art.urlToImage, art.url,
   art.publishedAt, src.side, art.description, fallback⟩

/-- The card-building loop: per selected source, prefer an unused article
whose reported source id matches; else take any unused article marking the
card `isFallback`; else emit no card.  `usedArticles` is the set of used
urls. -/
def buildCards (sources : List Picked) (articles : List Article) :
    List FeedCard :=
  (sources.foldl (fun acc src =>
    match articles.find? (fun a =>
        a.sourceId == some src.id && !(acc.2.contains a.url)) with
    | some art => (acc.1 ++ [mkCard src art false], acc.2 ++ [art.url])
    | none =>
      match articles.find? (fun a => !(acc.2.contains a.url)) with
      | some fa => (acc.1 ++ [mkCard src fa true], acc.2 ++ [fa.url])
      | none => acc) (([], []) : List FeedCard × List String)).1

/-- Rounding for `x.toFixed(3)`, modelled as rounding to thousandths; the canonical
string of the rounded rational stands in for JS decimal formatting (it is
likewise deterministic and injective on the rounded grid, which is all the
key construction requires). -/
def toFixed3 (q : ℚ) : ℚ := (round (q * 1000) : ℚ) / 1000

/-- The feed cache key `feed:{x.toFixed(3)}:{y.toFixed(3)}`. -/
def feedCacheKey (x y : ℚ) : String :=
  "feed:" ++ toString (toFixed3 x) ++ ":" ++ toString (toFixed3 y)

/-- Stands in for `JSON.stringify(cards)`: a definite string encoding of
the card list (no claim inspects the encoded form). -/
def encodeCards (cards : List FeedCard) : String :=
  String.intercalate "|" (cards.map (fun c => c.articleId ++ "," ++ c.sourceId))

/-- The handler's possible responses.  A cached hit responds with the
parsed stored payload (returned here as the stored string itself);
`error500` is the `catch`-all error response. -/
inductive FeedResponse
  | cachedHit (payload : String)
  | emptyNoSources
  | ok (cards : List FeedCard)
  | error500
deriving DecidableEq

/-- The handler after the cache consultation came back empty: select
sources, call the provider (whose failure throws into the endpoint's
`catch`, producing the 500 response), build cards, and cache them with the
default TTL of 1800 s only when at least one card was produced. -/
def feedHandlerRest (st : CacheState) (now : Nat) (catalog : List Source)
    (x y : ℚ) (provider : Except Unit (List Article)) :
    FeedResponse × CacheState :=
  let key := feedCacheKey x y
  let sources := pickSources catalog (.num x) (.num y) {}
  if sources.isEmpty then (.emptyNoSources, st)
  else
    match provider with
    | .error _ => (.error500, st)
    | .ok articles =>
      let cards := buildCards sources articles
      let st' :=
        if cards.length > 0 then
          (setCache st now key (some (encodeCards cards)) (some 1800)).2
        else st
      (.ok cards, st')

/-- The `GET /feed` handler on validated query values: consult the cache
unless `refresh` (a truthy — non-empty — cached payload short-circuits),
then assemble the feed. -/
def feedHandler (st : CacheState) (now : Nat) (catalog : List Source)
    (x y : ℚ) (refresh : Bool)
    (provider : Except Unit (List Article)) : FeedResponse × CacheState :=
  let r := if refresh then (none, st) else getCache st now (feedCacheKey x y)
  match r with
  | (some p, st') =>
    if p = "" then feedHandlerRest st' now catalog x y provider
    else (.cachedHit p, st')
  | (none, st') => feedHandlerRest st' now catalog x y provider

/-! ## Lemmas about the `Map` model -/

theorem mapSet_cons_ne {β : Type} (e : String × β) (t : List (String × β))
    (k : String) (v : β) (he : (e.1 == k) = false) :
    mapSet (e :: t) k v = e :: mapSet t k v := by
  have he' : ¬ e.1 = k := by simpa using he
  by_cases ha : t.any (fun x => x.1 == k)
  · simp [mapSet, List.any_cons, he, ha, he']
  · simp [mapSet, List.any_cons, he, ha, he']

theorem mapFind?_mapSet {β : Type} (l : List (String × β)) (k : String) (v : β) :
    mapFind? (mapSet l k v) k = some v := by
  induction l with
  | nil => simp [mapSet, mapFind?]
  | cons e t ih =>
    by_cases he : (e.1 == k) = true
    · have ha : ((e :: t).any fun x => x.1 == k) = true := by
        simp [List.any_cons, he]
      simp only [mapSet, ha, if_true, List.map_cons, he, reduceIte]
      unfold mapFind?
      rw [List.find?_cons_of_pos]
      · rfl
      · simp
    · have he' : (e.1 == k) = false := by simpa using he
      rw [mapSet_cons_ne e t k v he']
      unfold mapFind?
      rw [List.find?_cons_of_neg]
      · exact ih
      · simp_all

/-- A freshly written fast-tier entry is not expired at write time. -/
theorem expiredLt_fresh (now t : Nat) :
    expiredLt (some (now + t * 1000)) now = false := by
  simp [expiredLt]

/-- Reading back a fast-tier write at the same instant yields the value
(for every TTL form). -/
theorem MemoryCache.get_set_self (c : MemoryCache) (now : Nat) (k v : String)
    (ttl : Option Nat) : ((c.set now k v ttl).get now k).1 = some v := by
  unfold MemoryCache.set MemoryCache.get
  cases ttl with
  | none => simp [mapFind?_mapSet, expiredLt]
  | some t =>
    by_cases ht : t = 0
    · simp [ht, mapFind?_mapSet, expiredLt]
    · simp only [ht, if_false]
      simp [mapFind?_mapSet, expiredLt_fresh]

/-- Reading back a fast-tier write once more than `ttl` seconds have
passed yields a miss. -/
theorem MemoryCache.get_set_expired (c : MemoryCache) (now nowLater : Nat)
    (k v : String) (t : Nat) (ht : 0 < t) (h : now + t * 1000 < nowLater) :
    ((c.set now k v (some t)).get nowLater k).1 = none := by
  unfold MemoryCache.set MemoryCache.get
  have ht' : ¬ t = 0 := by omega
  simp only [ht', if_false]
  have hx : expiredLt (some (now + t * 1000)) nowLater = true := by
    simp [expiredLt]
    omega
  simp [mapFind?_mapSet, hx]

/-- A durable-tier write read back before its expiry yields the value. -/
theorem redisLookup_redisSet_live (l : List (String × RVal)) (now nowR : Nat)
    (k v : String) (t : Nat) (h : nowR < now + t * 1000) :
    redisLookup (redisSet l now k v (some t)) nowR k = some v := by
  unfold redisLookup redisSet
  simp [mapFind?_mapSet]
  omega

/-- A durable-tier write read back after its expiry is absent. -/
theorem redisLookup_redisSet_expired (l : List (String × RVal)) (now nowR : Nat)
    (k v : String) (t : Nat) (h : now + t * 1000 ≤ nowR) :
    redisLookup (redisSet l now k v (some t)) nowR k = none := by
  unfold redisLookup redisSet
  simp [mapFind?_mapSet]
  omega

/-! ## Claim C8 -/

/-- C8: when the durable tier is healthy and holds the requested key,
`getCache` returns that value and leaves the rest of the state — in
particular the whole fast in-memory tier — completely unchanged: no
insertion and no LRU promotion happens on a durable-tier read hit. -/
theorem getCache_redis_hit_frame (st : CacheState) (now : Nat)
    (k v : String) (hc : st.connected = true) (hf : st.rfail = false)
    (hv : redisLookup st.rstore now k = some v) :
    getCache st now k = (some v, st) := by
  simp [getCache, hc, hf, hv]

/-- Witness for C8 at a concrete state: a durable hit for key `"k"` is
returned with the state (fast tier included) untouched. -/
theorem getCache_redis_hit_frame_witness :
    getCache ⟨true, false, [("k", ⟨"v", none⟩)], ⟨[("m", ⟨"w", none⟩)], 5⟩⟩ 3 "k" =
      (some "v", ⟨true, false, [("k", ⟨"v", none⟩)], ⟨[("m", ⟨"w", none⟩)], 5⟩⟩) :=
  getCache_redis_hit_frame _ 3 "k" "v" rfl rfl (by decide)

/-! ## Claim C7 -/

/-- C7: for every non-empty (truthy) key and defined value, `setCache`
reports success and leaves the value readable in the fast in-memory tier,
whatever the durable tier does — including when the durable write throws
(`rfail`), in which case only the connection-health flag is downgraded. -/
theorem setCache_always_succeeds_memory (st : CacheState) (now : Nat)
    (k v : String) (ttl : Option Nat) (hk : k ≠ "") :
    (setCache st now k (some v) ttl).1 = true ∧
    (((setCache st now k (some v) ttl).2.mem.get now k).1 = some v) ∧
    (st.connected = true → st.rfail = true →
      (setCache st now k (some v) ttl).2.connected = false) := by
  unfold setCache
  simp only [hk, false_or, if_neg, Option.some.injEq, reduceCtorEq, if_false]
  cases hc : st.connected with
  | false =>
    refine ⟨?_, ?_, ?_⟩ <;>
      simp [hc, MemoryCache.get_set_self]
  | true =>
    cases hf : st.rfail with
    | true => refine ⟨?_, ?_, ?_⟩ <;> simp [hc, hf, MemoryCache.get_set_self]
    | false => refine ⟨?_, ?_, ?_⟩ <;> simp [hc, hf, MemoryCache.get_set_self]

/-- Witness for C7: a concrete write against a failing durable tier still
succeeds, the value is readable from the fast tier, and the health flag is
dropped. -/
theorem setCache_always_succeeds_memory_witness :
    (setCache ⟨true, true, [], ⟨[], 5⟩⟩ 100 "k" (some "v") (some 60)).1 = true ∧
    (((setCache ⟨true, true, [], ⟨[], 5⟩⟩ 100 "k" (some "v") (some 60)).2.mem.get
        100 "k").1 = some "v") ∧
    ((true : Bool) = true → (true : Bool) = true →
      (setCache ⟨true, true, [], ⟨[], 5⟩⟩ 100 "k" (some "v") (some 60)).2.connected
        = false) :=
  setCache_always_succeeds_memory ⟨true, true, [], ⟨[], 5⟩⟩ 100 "k" "v" (some 60)
    (by decide)

/-! ## Claim C6 -/

/-- Characterization of `setCache` on a valid key/value pair. -/
theorem setCache_valid (st : CacheState) (now : Nat) (k v : String)
    (ttl : Option Nat) (hk : k ≠ "") :
    setCache st now k (some v) ttl =
      if st.connected then
        if st.rfail then
          (true, { st with connected := false, mem := st.mem.set now k v ttl })
        else
          (true, { st with rstore := redisSet st.rstore now k v ttl,
                           mem := st.mem.set now k v ttl })
      else (true, { st with mem := st.mem.set now k v ttl }) := by
  simp [setCache, hk]

/-- C6 (amended): round-trip for a truthy key and a truthy TTL —
`setCache(k, v, ttl)` with `k` non-empty and `ttl > 0` followed
immediately by `getCache(k)` returns `v`, and once more than `ttl`
seconds (in milliseconds of simulated clock) have elapsed, `getCache(k)`
returns absent (`none`), in every durable-tier condition (healthy,
absent, or failing).  The restrictions are forced by the code: a falsy
key is rejected by `setCache` (nothing stored), and a falsy TTL of 0
stores an entry with `null` expiry that never expires — see the
counterexample below. -/
theorem cache_roundtrip (st : CacheState) (now nowLater : Nat) (k v : String)
    (t : Nat) (hk : k ≠ "") (ht : 0 < t) :
    ((getCache (setCache st now k (some v) (some t)).2 now k).1 = some v) ∧
    (now + t * 1000 < nowLater →
      (getCache (setCache st now k (some v) (some t)).2 nowLater k).1 = none) := by
  have hs := setCache_valid st now k v (some t) hk
  cases hc : st.connected with
  | false =>
    rw [hs]
    simp only [hc, Bool.false_eq_true, if_false]
    constructor
    · simp [getCache, memFallbackGet, MemoryCache.get_set_self]
    · intro h
      simp [getCache, memFallbackGet,
        MemoryCache.get_set_expired _ _ _ _ _ _ ht h]
  | true =>
    cases hf : st.rfail with
    | true =>
      rw [hs]
      simp only [hc, hf, if_true]
      constructor
      · simp [getCache, memFallbackGet, MemoryCache.get_set_self]
      · intro h
        simp [getCache, memFallbackGet,
          MemoryCache.get_set_expired _ _ _ _ _ _ ht h]
    | false =>
      rw [hs]
      simp only [hc, hf, if_true, Bool.false_eq_true, if_false]
      constructor
      · have hr : redisLookup (redisSet st.rstore now k v (some t)) now k
            = some v := redisLookup_redisSet_live _ _ _ _ _ _ (by omega)
        simp [getCache, hc, hf, hr]
      · intro h
        have hr : redisLookup (redisSet st.rstore now k v (some t)) nowLater k
            = none := redisLookup_redisSet_expired _ _ _ _ _ _ (by omega)
        simp [getCache, hc, hf, hr, memFallbackGet,
          MemoryCache.get_set_expired _ _ _ _ _ _ ht h]

/-- Witness for C6 at a concrete state: set with a 60 s TTL at time 100,
read back at 100 (hit) and at 100000 (past expiry: miss). -/
theorem cache_roundtrip_witness :
    ((getCache (setCache ⟨true, false, [], ⟨[], 5⟩⟩ 100 "k" (some "v")
        (some 60)).2 100 "k").1 = some "v") ∧
    (100 + 60 * 1000 < 100000 →
      (getCache (setCache ⟨true, false, [], ⟨[], 5⟩⟩ 100 "k" (some "v")
          (some 60)).2 100000 "k").1 = none) :=
  cache_roundtrip ⟨true, false, [], ⟨[], 5⟩⟩ 100 100000 "k" "v" 60
    (by decide) (by decide)

/-- C6 counterexample: the round-trip claim fails as stated ("for every
key") at the code's edge inputs.  First conjunct: the falsy (empty) key
is rejected by `setCache` (`if (!key || value === undefined)`), nothing
is stored, and the immediate `getCache` misses instead of returning the
value.  Second conjunct: a TTL of 0 is falsy (`ttlSec ? ... : null`), so
the entry is stored with `null` expiry and `getCache` still returns the
value long after "more than ttl seconds" have elapsed, instead of
absent. -/
theorem cache_roundtrip_counterexample :
    (¬ ((getCache (setCache ⟨true, false, [], ⟨[], 5⟩⟩ 100 "" (some "v")
        (some 60)).2 100 "").1 = some "v")) ∧
    (¬ ((getCache (setCache ⟨false, false, [], ⟨[], 5⟩⟩ 100 "k" (some "v")
        (some 0)).2 999999999 "k").1 = none)) := by
  decide

/-! ## Claim C3 -/

/-- Unfolding equation: a leading `*` tries every suffix. -/
theorem globChars_cons_star (ps s : List Char) :
    globChars ('*' :: ps) s = s.tails.any (fun t => globChars ps t) := by
  simp [globChars]

/-- Unfolding equation: a literal head must match the head character. -/
theorem globChars_cons_lit (p : Char) (ps : List Char) (c : Char)
    (s : List Char) (hp : p ≠ '*') :
    globChars (p :: ps) (c :: s) = ((p == c) && globChars ps s) := by
  simp [globChars, hp]

/-- Unfolding equation: a literal head never matches the empty string. -/
theorem globChars_cons_lit_nil (p : Char) (ps : List Char) (hp : p ≠ '*') :
    globChars (p :: ps) [] = false := by
  simp [globChars, hp]

/-- Prefixing a glob pattern with `*` preserves every match. -/
theorem globChars_star_prefix (ps s : List Char) (h : globChars ps s = true) :
    globChars ('*' :: ps) s = true := by
  rw [globChars_cons_star, List.any_eq_true]
  exact ⟨s, (List.mem_tails s s).mpr (List.suffix_refl s), h⟩

/-- Extending a glob pattern with a trailing `*` preserves every match. -/
theorem globChars_append_star (ps : List Char) (s : List Char)
    (h : globChars ps s = true) : globChars (ps ++ ['*']) s = true := by
  induction ps generalizing s with
  | nil =>
    rw [List.nil_append, globChars_cons_star, List.any_eq_true]
    exact ⟨[], (List.mem_tails [] s).mpr List.nil_suffix, by rfl⟩
  | cons p ps ih =>
    by_cases hp : p = '*'
    · subst hp
      rw [globChars_cons_star, List.any_eq_true] at h
      obtain ⟨t, htm, htg⟩ := h
      rw [List.cons_append, globChars_cons_star, List.any_eq_true]
      exact ⟨t, htm, ih t htg⟩
    · cases s with
      | nil => rw [globChars_cons_lit_nil p ps hp] at h; exact absurd h (by simp)
      | cons c s₁ =>
        rw [globChars_cons_lit p ps c s₁ hp, Bool.and_eq_true] at h
        rw [List.cons_append, globChars_cons_lit p _ c s₁ hp, Bool.and_eq_true]
        exact ⟨h.1, ih s₁ h.2⟩

/-- An anchored glob match implies a match of the fast tier's unanchored
regex derived from the same pattern. -/
theorem regexTest_of_globMatch (p k : String) (h : globMatch p k = true) :
    regexTest p k = true := by
  unfold regexTest globMatch
  have hdata : ("*" ++ p ++ "*").data = '*' :: (p.data ++ "*".data) := by
    rw [String.data_append, String.data_append]
    rfl
  rw [hdata]
  exact globChars_star_prefix _ _ (globChars_append_star _ _ h)

/-- Deleting everything that satisfies `f` from a map leaves no binding
for a key satisfying `f`. -/
theorem mapFind?_filter_out {β : Type} (l : List (String × β))
    (f : String → Bool) (k : String) (hk : f k = true) :
    mapFind? (l.filter (fun e => !f e.1)) k = none := by
  unfold mapFind?
  rw [List.find?_eq_none.mpr]
  · rfl
  · intro x hx hbeq
    have hx2 := (List.mem_filter.mp hx).2
    have hxk : x.1 = k := by simpa using hbeq
    rw [hxk, hk] at hx2
    simp at hx2

/-- C3 counterexample: called with no pattern, `clearCache` does NOT
remove all keys from both tiers — the durable tier's condition
`isRedisConnected && client && pattern` is false without a pattern, so a
durable key survives a patternless clear even on a healthy connection. -/
theorem clearCache_noPattern_counterexample :
    ((clearCache ⟨true, false, [("feed:1", ⟨"v", none⟩)], ⟨[], 4⟩⟩ none).2).rstore
      = [("feed:1", ⟨"v", none⟩)] := by decide

/-- C3 (amended): with a glob pattern and a healthy durable tier,
`clearCache` deletes every key matching the pattern from both tiers
(the fast tier's regex matching is unanchored, hence a superset of the
glob matches); with no pattern, it removes all keys from the fast
in-memory tier only and leaves the durable tier untouched. -/
theorem clearCache_amended (st : CacheState) (p : Option String) :
    (∀ q k, p = some q → st.connected = true → st.rfail = false →
       globMatch q k = true →
       mapFind? (clearCache st p).2.rstore k = none ∧
       mapFind? (clearCache st p).2.mem.cache k = none) ∧
    (p = none →
       (clearCache st p).2.mem.cache = [] ∧
       (clearCache st p).2.rstore = st.rstore) := by
  cases p with
  | none =>
    refine ⟨fun q k hq => by simp at hq, fun _ => ?_⟩
    simp [clearCache, MemoryCache.clear]
  | some q₀ =>
    refine ⟨fun q k hq hc hf hm => ?_, fun hn => by simp at hn⟩
    obtain rfl : q₀ = q := by injection hq
    constructor
    · simp only [clearCache, hc, hf, Bool.false_eq_true, if_false, if_true]
      exact mapFind?_filter_out _ _ _ hm
    · simp only [clearCache, hc, hf, Bool.false_eq_true, if_false, if_true]
      exact mapFind?_filter_out _ _ _ (regexTest_of_globMatch _ _ hm)

/-- Witness for C3 (amended), at a concrete state holding `feed:1` in
both tiers: clearing with pattern `feed:*` removes it from both. -/
theorem clearCache_amended_witness :
    mapFind? ((clearCache ⟨true, false, [("feed:1", ⟨"v", none⟩)],
        ⟨[("feed:1", ⟨"v", none⟩)], 4⟩⟩ (some "feed:*")).2).rstore "feed:1"
      = none ∧
    mapFind? ((clearCache ⟨true, false, [("feed:1", ⟨"v", none⟩)],
        ⟨[("feed:1", ⟨"v", none⟩)], 4⟩⟩ (some "feed:*")).2).mem.cache "feed:1"
      = none :=
  (clearCache_amended ⟨true, false, [("feed:1", ⟨"v", none⟩)],
      ⟨[("feed:1", ⟨"v", none⟩)], 4⟩⟩ (some "feed:*")).1 "feed:*" "feed:1"
    rfl rfl rfl (by decide)

/-! ## Claims C5 and C10 — the fast tier's LRU discipline and size bound -/

theorem keys_mapErase {β : Type} (l : List (String × β)) (k : String) :
    (mapErase l k).map (·.1) = (l.map (·.1)).filter (fun x => x != k) := by
  unfold mapErase
  rw [List.filter_map]
  rfl

/-- Erasing the head key of a key-nodup map drops exactly the head. -/
theorem mapErase_head {β : Type} (e : String × β) (t : List (String × β))
    (hnd : ((e :: t).map (·.1)).Nodup) : mapErase (e :: t) e.1 = t := by
  rw [List.map_cons] at hnd
  have hni := (List.nodup_cons.mp hnd).1
  unfold mapErase
  rw [List.filter_cons]
  have h1 : (e.1 != e.1) = false := by simp
  rw [h1]
  simp only [Bool.false_eq_true, if_false]
  apply List.filter_eq_self.mpr
  intro x hx
  have hne : x.1 ≠ e.1 := fun hc => hni (hc ▸ List.mem_map_of_mem (·.1) hx)
  simpa using hne

theorem mapSet_of_not_mem {β : Type} (l : List (String × β)) (k : String)
    (v : β) (h : l.any (fun e => e.1 == k) = false) :
    mapSet l k v = l ++ [(k, v)] := by
  simp [mapSet, h]

theorem mapSet_length_le {β : Type} (l : List (String × β)) (k : String)
    (v : β) : (mapSet l k v).length ≤ l.length + 1 := by
  unfold mapSet
  split
  · simp
  · simp

/-- A `set` keeps the capacity field. -/
theorem MemoryCache.set_maxSize (c : MemoryCache) (now : Nat) (k v : String)
    (ttl : Option Nat) : (c.set now k v ttl).maxSize = c.maxSize := rfl

/-- A `set` below capacity on an absent key appends the key. -/
theorem MemoryCache.keys_set_append (c : MemoryCache) (now : Nat)
    (k v : String) (ttl : Option Nat) (hlt : c.cache.length < c.maxSize)
    (habs : c.cache.any (fun e => e.1 == k) = false) :
    (c.set now k v ttl).keys = c.keys ++ [k] := by
  unfold MemoryCache.set MemoryCache.keys
  have hc : ¬ c.cache.length ≥ c.maxSize := by omega
  simp only [hc, if_false, mapSet_of_not_mem _ _ _ habs, List.map_append]
  rfl

/-- A `set` at capacity on an absent key evicts the head key and appends
the new one. -/
theorem MemoryCache.keys_set_evict (c : MemoryCache) (now : Nat)
    (k v : String) (ttl : Option Nat) (hge : c.maxSize ≤ c.cache.length)
    (hne : c.cache ≠ []) (hnd : c.keys.Nodup)
    (habs : c.cache.any (fun e => e.1 == k) = false) :
    (c.set now k v ttl).keys = c.keys.tail ++ [k] := by
  obtain ⟨lc, ms⟩ := c
  simp only [MemoryCache.keys, MemoryCache.set] at *
  cases lc with
  | nil => exact absurd rfl hne
  | cons e t =>
    rw [if_pos (show (e :: t).length ≥ ms by omega)]
    rw [show (match e :: t with
        | [] => e :: t
        | e₁ :: _ => mapErase (e :: t) e₁.1) = mapErase (e :: t) e.1 from rfl]
    rw [mapErase_head e t hnd]
    have habs₁ : t.any (fun x => x.1 == k) = false := by
      rw [List.any_cons] at habs
      exact (Bool.or_eq_false_iff.mp habs).2
    rw [mapSet_of_not_mem _ _ _ habs₁]
    simp

/-- Folding distinct-key inserts into an empty cache of capacity `m ≥ 1`
retains exactly the last `m` keys, in insertion order. -/
theorem keys_foldl_set (m now : Nat) (v : String) (ttl : Option Nat)
    (hm : 1 ≤ m) (ks : List String) (hnd : ks.Nodup) :
    ((ks.foldl (fun (c : MemoryCache) k => c.set now k v ttl)
        (MemoryCache.mk [] m)).maxSize = m) ∧
    ((ks.foldl (fun (c : MemoryCache) k => c.set now k v ttl)
        (MemoryCache.mk [] m)).keys = ks.drop (ks.length - m)) := by
  induction ks using List.reverseRecOn with
  | nil => exact ⟨rfl, by simp [MemoryCache.keys]⟩
  | append_singleton l k ih =>
    have hl : l.Nodup := (List.nodup_append.mp hnd).1
    have hkl : k ∉ l := by
      intro hmem
      rcases List.nodup_append.mp hnd with ⟨-, -, hdis⟩
      exact hdis hmem (by simp)
    obtain ⟨ihm, ihk⟩ := ih hl
    rw [List.foldl_append, List.foldl_cons, List.foldl_nil]
    set C := l.foldl (fun (c : MemoryCache) k => c.set now k v ttl)
      (MemoryCache.mk [] m) with hC
    have hkeysub : ∀ x ∈ C.keys, x ∈ l := by
      intro x hx
      rw [ihk] at hx
      exact (List.drop_sublist _ _).mem hx
    have habs : C.cache.any (fun e => e.1 == k) = false := by
      apply List.any_eq_false.mpr
      intro e he hbe
      have hm1 : e.1 ∈ C.keys := List.mem_map_of_mem (·.1) he
      have hm2 : e.1 ∈ l := hkeysub _ hm1
      have hm3 : e.1 = k := by simpa using hbe
      rw [hm3] at hm2
      exact hkl hm2
    have hlen : C.cache.length = C.keys.length := by
      simp [MemoryCache.keys]
    by_cases hcap : l.length < m
    · have hlt : C.cache.length < C.maxSize := by
        rw [hlen, ihk, ihm]
        have h0 : l.length - m = 0 := by omega
        rw [h0, List.drop_zero]
        omega
      refine ⟨by rw [MemoryCache.set_maxSize, ihm], ?_⟩
      rw [MemoryCache.keys_set_append C now k v ttl hlt habs, ihk]
      have h0 : l.length - m = 0 := by omega
      have h1 : (l ++ [k]).length - m = 0 := by
        rw [List.length_append, List.length_singleton]
        omega
      rw [h0, List.drop_zero, h1, List.drop_zero]
    · have hge : C.maxSize ≤ C.cache.length := by
        rw [hlen, ihk, ihm, List.length_drop]
        omega
      have hne : C.cache ≠ [] := by
        intro hnil
        rw [hnil] at hlen
        rw [ihk] at hlen
        simp only [List.length_nil, List.length_drop] at hlen
        omega
      have hndk : C.keys.Nodup := by
        rw [ihk]
        exact hl.sublist (List.drop_sublist _ _)
      refine ⟨by rw [MemoryCache.set_maxSize, ihm], ?_⟩
      rw [MemoryCache.keys_set_evict C now k v ttl hge hne hndk habs, ihk,
        List.tail_drop]
      rw [List.length_append, List.length_singleton,
        List.drop_append_of_le_length
          (show l.length + 1 - m ≤ l.length by omega)]
      have h2 : l.length + 1 - m = l.length - m + 1 := by omega
      rw [h2]

/-- C5: the fast tier is a classic LRU — (1) a `get` hit moves the entry
to most-recently-used position (its key moves to the end of the recency
order, everything else keeps its order); (2) inserting `maxSize + 1`
distinct keys into an empty cache retains exactly the last `maxSize`
keys in insertion order: the first-inserted key is evicted and the most
recently inserted key survives. -/
theorem memoryCache_lru :
    (∀ (c : MemoryCache) (now : Nat) (k v : String),
      (c.get now k).1 = some v →
      (c.get now k).2.keys = c.keys.filter (fun x => x != k) ++ [k]) ∧
    (∀ (m now : Nat) (v : String) (ttl : Option Nat) (kFirst : String)
       (ks : List String), 1 ≤ m → ks.length = m →
       (kFirst :: ks).Nodup →
       (((kFirst :: ks).foldl (fun (c : MemoryCache) k => c.set now k v ttl)
           (MemoryCache.mk [] m)).keys = ks) ∧
       kFirst ∉ ((kFirst :: ks).foldl
           (fun (c : MemoryCache) k => c.set now k v ttl)
           (MemoryCache.mk [] m)).keys ∧
       (∀ kLast, ks.getLast? = some kLast →
         kLast ∈ ((kFirst :: ks).foldl
           (fun (c : MemoryCache) k => c.set now k v ttl)
           (MemoryCache.mk [] m)).keys)) := by
  constructor
  · intro c now k v h
    cases hf : mapFind? c.cache k with
    | none =>
      rw [MemoryCache.get, hf] at h
      simp at h
    | some item =>
      cases hexp : expiredLt item.expires now with
      | true =>
        rw [MemoryCache.get, hf] at h
        simp only [hexp, if_true] at h
        simp at h
      | false =>
        rw [MemoryCache.get, hf]
        simp only [hexp, Bool.false_eq_true, if_false, MemoryCache.keys,
          List.map_append, keys_mapErase, List.map_cons, List.map_nil]
  · intro m now v ttl kFirst ks hm hlenks hnd
    have hkeys : ((kFirst :: ks).foldl
        (fun (c : MemoryCache) k => c.set now k v ttl)
        (MemoryCache.mk [] m)).keys = ks := by
      rw [(keys_foldl_set m now v ttl hm (kFirst :: ks) hnd).2]
      simp [hlenks]
    refine ⟨hkeys, ?_, ?_⟩
    · rw [hkeys]
      exact (List.nodup_cons.mp hnd).1
    · intro kLast hlast
      rw [hkeys]
      exact List.mem_of_mem_getLast? hlast

/-- Witness for C5: a concrete hit promotes `"a"` past `"b"`, and
inserting 3 distinct keys into an empty 2-capacity cache keeps exactly
the last two. -/
theorem memoryCache_lru_witness :
    (((MemoryCache.mk [("a", ⟨"1", none⟩), ("b", ⟨"2", none⟩)] 5).get 0
        "a").2.keys = ["b", "a"]) ∧
    ((["a", "b", "c"].foldl (fun (c : MemoryCache) k => c.set 0 k "v"
        (some 60)) (MemoryCache.mk [] 2)).keys = ["b", "c"]) := by
  constructor
  · have h := memoryCache_lru.1 (MemoryCache.mk
      [("a", ⟨"1", none⟩), ("b", ⟨"2", none⟩)] 5) 0 "a" "1" (by decide)
    rw [h]
    decide
  · exact (memoryCache_lru.2 2 0 "v" (some 60) "a" ["b", "c"]
      (by decide) (by decide) (by decide)).1

/-- A `get` never changes the capacity field. -/
theorem MemoryCache.get_maxSize (c : MemoryCache) (now : Nat) (k : String) :
    ((c.get now k).2).maxSize = c.maxSize := by
  unfold MemoryCache.get
  split
  · rfl
  · split <;> rfl

/-- A `get` never grows the fast tier. -/
theorem MemoryCache.get_size_le (c : MemoryCache) (now : Nat) (k : String) :
    ((c.get now k).2).cache.length ≤ c.cache.length := by
  unfold MemoryCache.get
  split
  · exact le_refl _
  next item heq =>
    split
    · exact List.length_filter_le _ _
    · simp only [List.length_append, List.length_singleton]
      have hmem : ∃ x ∈ c.cache, ¬ ((x.1 != k) = true) := by
        unfold mapFind? at heq
        cases hfx : c.cache.find? (fun e => e.1 == k) with
        | none => rw [hfx] at heq; simp at heq
        | some x =>
          have hp := List.find?_some hfx
          exact ⟨x, List.mem_of_find?_eq_some hfx, by simpa using hp⟩
      have hlt := (List.length_filter_lt_length_iff_exists
        (l := c.cache) (p := fun x => x.1 != k)).mpr hmem
      unfold mapErase
      omega

/-- A `set` never grows the fast tier beyond its capacity (capacity at
least 1), whatever the prior size within bounds. -/
theorem MemoryCache.set_size_le (c : MemoryCache) (now : Nat) (k v : String)
    (ttl : Option Nat) (hm : 1 ≤ c.maxSize) (h : c.cache.length ≤ c.maxSize) :
    ((c.set now k v ttl)).cache.length ≤ c.maxSize := by
  obtain ⟨lc, ms⟩ := c
  have hm₁ : 1 ≤ ms := hm
  have h₁ : lc.length ≤ ms := h
  clear h hm
  show (mapSet (if lc.length ≥ ms then
      match lc with
      | [] => lc
      | e :: _ => mapErase lc e.1
    else lc) k _).length ≤ ms
  apply le_trans (mapSet_length_le _ _ _)
  split
  next hge =>
    cases lc with
    | nil => simpa using hm₁
    | cons e t =>
      rw [show (match e :: t with
          | [] => e :: t
          | e₁ :: _ => mapErase (e :: t) e₁.1) = mapErase (e :: t) e.1
        from rfl]
      have h2 : (mapErase (e :: t) e.1).length ≤ t.length := by
        unfold mapErase
        rw [List.filter_cons]
        have hx : (e.1 != e.1) = false := by simp
        rw [hx]
        simp only [Bool.false_eq_true, if_false]
        exact List.length_filter_le _ _
      simp only [List.length_cons] at h₁
      omega
  next hge =>
    omega

/-- C10 step lemma: every single fast-tier operation preserves the size
bound (given capacity at least 1) and the capacity itself. -/
theorem applyOp_size_le (c : MemoryCache) (o : CacheOp)
    (h : c.size ≤ c.maxSize) (hm : 1 ≤ c.maxSize) :
    (applyOp c o).size ≤ c.maxSize ∧ (applyOp c o).maxSize = c.maxSize := by
  cases o with
  | get now k =>
    refine ⟨?_, MemoryCache.get_maxSize c now k⟩
    have := MemoryCache.get_size_le c now k
    simp only [applyOp, MemoryCache.size] at *
    omega
  | set now k v ttl =>
    refine ⟨?_, MemoryCache.set_maxSize c now k v ttl⟩
    have := MemoryCache.set_size_le c now k v ttl hm
      (by simpa [MemoryCache.size] using h)
    simpa [applyOp, MemoryCache.size] using this
  | del k =>
    refine ⟨?_, rfl⟩
    simp only [applyOp, MemoryCache.delete, MemoryCache.size, mapErase]
    simp only [MemoryCache.size] at h
    exact le_trans (List.length_filter_le _ _) h
  | clear =>
    refine ⟨?_, rfl⟩
    simp [applyOp, MemoryCache.clear, MemoryCache.size]
  | cleanup now =>
    refine ⟨?_, rfl⟩
    simp only [applyOp, MemoryCache.cleanup, MemoryCache.size]
    simp only [MemoryCache.size] at h
    exact le_trans (List.length_filter_le _ _) h

/-- C10: the fast in-memory tier is always bounded — starting from an
empty cache with `maxSize ≥ 1`, after every sequence of
get/set/delete/clear/cleanup operations the number of stored entries is
at most `maxSize`. -/
theorem memoryCache_bounded (ops : List CacheOp) (m : Nat) (hm : 1 ≤ m) :
    (ops.foldl applyOp (MemoryCache.mk [] m)).size ≤ m := by
  suffices hgen : ∀ c : MemoryCache, c.size ≤ c.maxSize → c.maxSize = m →
      (ops.foldl applyOp c).size ≤ m by
    exact hgen (MemoryCache.mk [] m) (by simp [MemoryCache.size]) rfl
  induction ops with
  | nil => intro c h hc; simpa [hc] using h
  | cons o rest ih =>
    intro c h hc
    rw [List.foldl_cons]
    obtain ⟨h1, h2⟩ := applyOp_size_le c o h (by omega)
    exact ih (applyOp c o) (by omega) (by omega)

/-- Witness for C10 at a concrete operation sequence on a 2-entry cache:
three inserts, a get, a delete and a cleanup never exceed the bound. -/
theorem memoryCache_bounded_witness :
    (([CacheOp.set 0 "a" "v" (some 60), CacheOp.set 0 "b" "v" (some 60),
       CacheOp.set 0 "c" "v" (some 60), CacheOp.get 0 "b",
       CacheOp.del "c", CacheOp.cleanup 99999999].foldl applyOp
        (MemoryCache.mk [] 2)).size ≤ 2) :=
  memoryCache_bounded _ 2 (by decide)


/-! ## Claim C4 -/

/-- C4: `pickSources` never propagates an exception to the caller — the
whole `try` body is an `Except` computation whose every error the
function's `catch` converts to the emergency fallback list.  Concretely:
(1) whenever the body throws, the call returns the emergency fallback
list; (2) a non-numeric coordinate does throw; (3) the emergency list is
the first 4 built-in default sources, each marked `isFallback = true`. -/
theorem pickSources_error_handling :
    (∀ (catalog : List Source) (jx jy : JVal) (opts : PickOptions)
       (e : String), pickSourcesBody catalog jx jy opts = .error e →
       pickSources catalog jx jy opts = getEmergencyFallbackSources) ∧
    (∀ (catalog : List Source) (jx jy : JVal) (opts : PickOptions),
       (jx = .nonnum ∨ jy = .nonnum) →
       pickSources catalog jx jy opts = getEmergencyFallbackSources) ∧
    getEmergencyFallbackSources.length = 4 ∧
    (∀ p ∈ getEmergencyFallbackSources, p.isFallback = true) ∧
    getEmergencyFallbackSources.map (fun p => p.id) =
      (getDefaultSources.take 4).map (fun s => s.id) := by
  have hthrow : ∀ (catalog : List Source) (jx jy : JVal) (opts : PickOptions),
      (jx = .nonnum ∨ jy = .nonnum) →
      pickSourcesBody catalog jx jy opts =
        .error "Invalid bias coordinates" := by
    intro catalog jx jy opts h
    cases h with
    | inl h => subst h; cases jy <;> rfl
    | inr h => subst h; cases jx <;> rfl
  refine ⟨?_, ?_, by decide, by decide, by decide⟩
  · intro catalog jx jy opts e he
    unfold pickSources
    rw [he]
  · intro catalog jx jy opts h
    unfold pickSources
    rw [hthrow catalog jx jy opts h]

/-- Witness for C4: a concrete non-numeric coordinate produces exactly the
emergency fallback list. -/
theorem pickSources_error_handling_witness :
    pickSources [] JVal.nonnum (JVal.num 0) {} = getEmergencyFallbackSources :=
  pickSources_error_handling.2.1 [] JVal.nonnum (JVal.num 0) {} (Or.inl rfl)

/-! ## Claim C9 -/

/-- C9: on a cache miss (or a forced refresh) with a non-empty source
selection, the `/feed` handler behaves as follows — if the article
provider fails, the request fails with the 500 error response and the
cache is left exactly as the cache consultation left it (in particular
nothing is written under the request's feed key); if the provider
succeeds, the assembled card list is stored under the feed key with the
default TTL of 1800 s exactly when at least one card was produced, and
the cache is untouched when zero cards were produced. -/
theorem feedHandler_cache_write (st : CacheState) (now : Nat)
    (catalog : List Source) (x y : ℚ) (refresh : Bool)
    (provider : Except Unit (List Article))
    (hmiss : refresh = true ∨
      (getCache st now (feedCacheKey x y)).1 = none)
    (hsrc : (pickSources catalog (.num x) (.num y) {}).isEmpty = false) :
    feedHandler st now catalog x y refresh provider =
      (match provider with
       | .error _ => (.error500,
          if refresh then st else (getCache st now (feedCacheKey x y)).2)
       | .ok articles =>
         (.ok (buildCards (pickSources catalog (.num x) (.num y) {})
            articles),
          if 0 < (buildCards (pickSources catalog (.num x) (.num y) {})
              articles).length then
            (setCache
              (if refresh then st else (getCache st now (feedCacheKey x y)).2)
              now (feedCacheKey x y)
              (some (encodeCards (buildCards
                (pickSources catalog (.num x) (.num y) {}) articles)))
              (some 1800)).2
          else
            (if refresh then st
             else (getCache st now (feedCacheKey x y)).2))) := by
  have hred : feedHandler st now catalog x y refresh provider =
      feedHandlerRest
        (if refresh then st else (getCache st now (feedCacheKey x y)).2)
        now catalog x y provider := by
    unfold feedHandler
    cases hr : refresh with
    | true => rfl
    | false =>
      rcases hmiss with hm | hm
      · rw [hr] at hm
        exact absurd hm (by simp)
      · rcases hgc : getCache st now (feedCacheKey x y) with ⟨o, st₁⟩
        rw [hgc] at hm
        have ho : o = none := hm
        subst ho
        simp only [Bool.false_eq_true, if_false, hgc]
  rw [hred]
  unfold feedHandlerRest
  simp only [hsrc, Bool.false_eq_true, if_false]

unseal Rat.add Rat.mul Rat.sub Rat.ofScientific Rat.inv in
/-- Witness for C9: with a forced refresh, the default catalog at the
origin, and a failing provider, the handler returns the 500 response with
the state untouched. -/
theorem feedHandler_cache_write_witness :
    feedHandler ⟨false, false, [], ⟨[], 5⟩⟩ 0 getDefaultSources 0 0 true
        (.error ()) =
      (.error500, ⟨false, false, [], ⟨[], 5⟩⟩) :=
  feedHandler_cache_write ⟨false, false, [], ⟨[], 5⟩⟩ 0 getDefaultSources
    0 0 true (.error ()) (Or.inl rfl) (by decide)

/-! ## Toolkit for claims C1 and C2 — facts about `findClosestSources` -/

theorem subperm_map {α β : Type} (f : α → β) {l₁ l₂ : List α}
    (h : List.Subperm l₁ l₂) : List.Subperm (l₁.map f) (l₂.map f) := by
  obtain ⟨l, hp, hs⟩ := h
  exact ⟨l.map f, hp.map f, hs.map f⟩

theorem subperm_nodup {α : Type} {l₁ l₂ : List α} (h : List.Subperm l₁ l₂)
    (hnd : l₂.Nodup) : l₁.Nodup := by
  obtain ⟨l, hp, hs⟩ := h
  exact hp.nodup_iff.mp (hnd.sublist hs)

theorem findClosestSources_length (sources : List Source) (x y : ℚ)
    (n : Nat) (excl : List String) (cf : Option String) :
    (findClosestSources sources x y n excl cf).length =
      min n (candList sources x y excl cf).length := by
  unfold findClosestSources
  rw [List.length_take, List.length_insertionSort]

theorem findClosestSources_subperm (sources : List Source) (x y : ℚ)
    (n : Nat) (excl : List String) (cf : Option String) :
    List.Subperm (findClosestSources sources x y n excl cf)
      (candList sources x y excl cf) := by
  unfold findClosestSources
  exact (List.take_sublist _ _).subperm.trans
    (List.perm_insertionSort _ _).subperm

theorem mem_candList (sources : List Source) (x y : ℚ)
    (excl : List String) (cf : Option String) (c : Candidate)
    (h : c ∈ candList sources x y excl cf) :
    c.src ∈ sources ∧ candOk excl cf c.src = true := by
  unfold candList at h
  have h1 := (List.mem_filter.mp h).1
  obtain ⟨s, hs, hc⟩ := List.mem_map.mp h1
  constructor
  · rw [← hc]
    exact (List.mem_filter.mp hs).1
  · rw [← hc]
    exact (List.mem_filter.mp hs).2

/-- A member of the selection is in the catalog, active, and was not
excluded. -/
theorem mem_findClosestSources (sources : List Source) (x y : ℚ) (n : Nat)
    (excl : List String) (cf : Option String) (c : Candidate)
    (h : c ∈ findClosestSources sources x y n excl cf) :
    c.src ∈ sources ∧ c.src.active = true ∧ c.src.id ∉ excl := by
  have hc := (findClosestSources_subperm sources x y n excl cf).subset h
  obtain ⟨hmem, hok⟩ := mem_candList sources x y excl cf c hc
  unfold candOk at hok
  simp only [Bool.and_eq_true, Bool.not_eq_eq_eq_not, Bool.not_true] at hok
  refine ⟨hmem, hok.2, ?_⟩
  intro hin
  have : excl.contains c.src.id = true := by simpa using hin
  rw [this] at hok
  simpa using hok.1.1

/-- The split of the candidate-source filter into the active filter and
the rest. -/
theorem filter_candOk_eq (sources : List Source) (excl : List String)
    (cf : Option String) :
    (sources.filter (fun s => s.active)).filter
      (fun s => !(excl.contains s.id) &&
        (match cf with
         | some c => s.category == c
         | none => true)) =
      sources.filter (candOk excl cf) := by
  rw [List.filter_filter]
  exact List.filter_congr (fun a _ => rfl)

/-- The candidate ids form a sublist of the active catalog's ids. -/
theorem candList_ids_sublist (sources : List Source) (x y : ℚ)
    (excl : List String) (cf : Option String) :
    List.Sublist ((candList sources x y excl cf).map (fun c => c.src.id))
      ((sources.filter (fun s => s.active)).map (fun s => s.id)) := by
  have h1 : List.Sublist
      ((candList sources x y excl cf).map (fun c => c.src.id))
      (((sources.filter (candOk excl cf)).map
        (fun s => Candidate.mk s (calcDistSq x y s.x s.y))).map
        (fun c => c.src.id)) :=
    (List.filter_sublist _).map _
  rw [List.map_map] at h1
  have h2 : (sources.filter (candOk excl cf)).map
      ((fun c => c.src.id) ∘ (fun s => Candidate.mk s (calcDistSq x y s.x s.y)))
      = (sources.filter (candOk excl cf)).map (fun s => s.id) := rfl
  rw [h2] at h1
  have h3 : List.Sublist (sources.filter (candOk excl cf))
      (sources.filter (fun s => s.active)) := by
    rw [← filter_candOk_eq sources excl cf]
    exact List.filter_sublist _
  exact h1.trans (h3.map _)

/-- The ids of a selection are distinct whenever the active catalog's ids
are. -/
theorem findClosestSources_ids_nodup (sources : List Source) (x y : ℚ)
    (n : Nat) (excl : List String) (cf : Option String)
    (hnd : ((sources.filter (fun s => s.active)).map (fun s => s.id)).Nodup) :
    ((findClosestSources sources x y n excl cf).map
      (fun c => c.src.id)).Nodup := by
  have h1 := subperm_map (fun c => c.src.id)
    (findClosestSources_subperm sources x y n excl cf)
  exact subperm_nodup h1 (hnd.sublist (candList_ids_sublist sources x y excl cf))

theorem length_filter_split {α : Type} (l : List α) (p : α → Bool) :
    l.length = (l.filter p).length + (l.filter (fun a => !(p a))).length := by
  induction l with
  | nil => rfl
  | cons a t ih =>
    cases hp : p a with
    | true =>
      simp only [List.filter_cons, hp, Bool.not_true, Bool.false_eq_true,
        if_true, if_false, List.length_cons]
      omega
    | false =>
      simp only [List.filter_cons, hp, Bool.not_false, Bool.false_eq_true,
        if_true, if_false, List.length_cons]
      omega

/-- Every active in-range source sits within the search radius of the
origin, so the origin fallback's candidate list keeps every non-excluded
active source; with distinct active ids its size is at least the active
count minus the number of excluded ids. -/
theorem candList_origin_length (sources : List Source) (excl : List String)
    (hnd : ((sources.filter (fun s => s.active)).map (fun s => s.id)).Nodup)
    (hcoord : ∀ s ∈ sources, s.active = true →
      -1 ≤ s.x ∧ s.x ≤ 1 ∧ -1 ≤ s.y ∧ s.y ≤ 1) :
    (sources.filter (fun s => s.active)).length ≤
      (candList sources 0 0 excl none).length + excl.length := by
  have hA : candList sources 0 0 excl none =
      (sources.filter (candOk excl none)).map
        (fun s => Candidate.mk s (calcDistSq 0 0 s.x s.y)) := by
    unfold candList
    apply List.filter_eq_self.mpr
    intro c hc
    obtain ⟨s, hs, hcs⟩ := List.mem_map.mp hc
    have hsm : s ∈ sources := (List.mem_filter.mp hs).1
    have hsa : s.active = true := by
      have hok := (List.mem_filter.mp hs).2
      unfold candOk at hok
      simp only [Bool.and_eq_true] at hok
      exact hok.2
    obtain ⟨hx1, hx2, hy1, hy2⟩ := hcoord s hsm hsa
    rw [← hcs]
    simp only [decide_eq_true_eq]
    show calcDistSq 0 0 s.x s.y ≤ 4
    unfold calcDistSq
    nlinarith [mul_nonneg (by linarith : (0:ℚ) ≤ 1 - s.x)
        (by linarith : (0:ℚ) ≤ 1 + s.x),
      mul_nonneg (by linarith : (0:ℚ) ≤ 1 - s.y)
        (by linarith : (0:ℚ) ≤ 1 + s.y)]
  rw [hA, List.length_map]
  have hsplit2 : sources.filter (candOk excl none) =
      (sources.filter (fun s => s.active)).filter
        (fun s => !(excl.contains s.id)) := by
    rw [← filter_candOk_eq sources excl none]
    exact List.filter_congr (fun a _ => by simp)
  rw [hsplit2]
  have hcount := length_filter_split (sources.filter (fun s => s.active))
    (fun s => !(excl.contains s.id))
  have hrem : (((sources.filter (fun s => s.active)).filter
      (fun s => !(!(excl.contains s.id))))).length ≤ excl.length := by
    have hBid : ((((sources.filter (fun s => s.active)).filter
        (fun s => !(!(excl.contains s.id))))).map (fun s => s.id)).Nodup :=
      hnd.sublist ((List.filter_sublist _).map _)
    have hBsub : ∀ a ∈ (((sources.filter (fun s => s.active)).filter
        (fun s => !(!(excl.contains s.id))))).map (fun s => s.id),
        a ∈ excl := by
      intro a ha
      obtain ⟨s, hsB, rfl⟩ := List.mem_map.mp ha
      have hx := (List.mem_filter.mp hsB).2
      simpa using hx
    have hsp := List.subperm_of_subset hBid hBsub
    have hle := hsp.length_le
    rwa [List.length_map] at hle
  omega

/-! ## The diversity pass permutes its input when ids are distinct -/

theorem diversityFirstPass_shape (rest : List Selected) :
    ∀ (seen : List String) (d : List Selected),
    ∃ t, diversityFirstPass rest seen d = d ++ t ∧ List.Sublist t rest := by
  induction rest with
  | nil =>
    intro seen d
    exact ⟨[], by simp [diversityFirstPass], List.Sublist.refl _⟩
  | cons s r ih =>
    intro seen d
    unfold diversityFirstPass
    dsimp only
    split
    · obtain ⟨t, ht, hts⟩ := ih (diversityKey s :: seen) (d ++ [s])
      refine ⟨s :: t, ?_, hts.cons₂ s⟩
      rw [ht, List.append_assoc]
      rfl
    · obtain ⟨t, ht, hts⟩ := ih seen d
      exact ⟨t, ht, hts.cons s⟩

theorem diversityFill_shape (n : Nat) (rest : List Selected) :
    ∀ d, ∃ t, diversityFill n rest d = d ++ t ∧ List.Sublist t rest := by
  induction rest with
  | nil =>
    intro d
    exact ⟨[], by simp [diversityFill], List.Sublist.refl _⟩
  | cons s r ih =>
    intro d
    unfold diversityFill
    split
    · exact ⟨[], by simp, List.nil_sublist _⟩
    · split
      · obtain ⟨t, ht, hts⟩ := ih d
        exact ⟨t, ht, hts.cons s⟩
      · obtain ⟨t, ht, hts⟩ := ih (d ++ [s])
        refine ⟨s :: t, ?_, hts.cons₂ s⟩
        rw [ht, List.append_assoc]
        rfl

theorem diversityFill_ids_nodup (n : Nat) (rest : List Selected) :
    ∀ d, (d.map (fun s => s.src.id)).Nodup →
    ((diversityFill n rest d).map (fun s => s.src.id)).Nodup := by
  induction rest with
  | nil =>
    intro d h
    simpa [diversityFill] using h
  | cons s r ih =>
    intro d h
    unfold diversityFill
    split
    · exact h
    · split
      · exact ih d h
      next hfound =>
        apply ih
        rw [List.map_append]
        refine List.Nodup.append h (by simp) ?_
        intro a ha hb
        have hfn : d.find? (fun x => x.src.id == s.src.id) = none := by
          rcases hopt : d.find? (fun x => x.src.id == s.src.id) with _ | x
          · exact hopt
          · exact absurd (by rw [hopt]; rfl) hfound
        have hall := List.find?_eq_none.mp hfn
        obtain ⟨x, hx, rfl⟩ := List.mem_map.mp ha
        have hne : ¬ (x.src.id == s.src.id) = true := hall x hx
        simp only [List.map_cons, List.map_nil, List.mem_singleton] at hb
        exact hne (by simpa using hb)

theorem diversityFill_covers (l : List Selected)
    (hnd : (l.map (fun s => s.src.id)).Nodup) :
    ∀ (rest : List Selected) (d : List Selected),
    (∀ x ∈ d, x ∈ l) → (∀ x ∈ rest, x ∈ l) →
    ((d.map (fun s => s.src.id)).Nodup) →
    ∀ s ∈ rest,
      s.src.id ∈ (diversityFill l.length rest d).map (fun x => x.src.id) := by
  intro rest
  induction rest with
  | nil =>
    intro d _ _ _ s hs
    simp at hs
  | cons s₀ r ih =>
    intro d hdl hrl hdnd s hs
    unfold diversityFill
    split
    next hbreak =>
      have hdsub : ∀ a ∈ d.map (fun x => x.src.id),
          a ∈ l.map (fun x => x.src.id) := by
        intro a ha
        obtain ⟨x, hx, rfl⟩ := List.mem_map.mp ha
        exact List.mem_map_of_mem _ (hdl x hx)
      have hsp := List.subperm_of_subset hdnd hdsub
      have hperm := hsp.perm_of_length_le (by
        rw [List.length_map, List.length_map]
        exact hbreak)
      exact hperm.mem_iff.mpr (List.mem_map_of_mem _ (hrl s hs))
    next hbreak =>
      split
      next hfound =>
        rcases List.mem_cons.mp hs with rfl | hsr
        · obtain ⟨x, hfx⟩ := Option.isSome_iff_exists.mp hfound
          have hxd := List.mem_of_find?_eq_some hfx
          have hxp := List.find?_some hfx
          have hxe : x.src.id = s.src.id := by simpa using hxp
          have hin : s.src.id ∈ d.map (fun y => y.src.id) := by
            rw [← hxe]
            exact List.mem_map_of_mem _ hxd
          obtain ⟨t, ht, -⟩ := diversityFill_shape l.length r d
          rw [ht, List.map_append]
          exact List.mem_append_left _ hin
        · exact ih d hdl (fun x hx => hrl x (List.mem_cons_of_mem _ hx))
            hdnd s hsr
      next hfound =>
        rcases List.mem_cons.mp hs with rfl | hsr
        · obtain ⟨t, ht, -⟩ := diversityFill_shape l.length r (d ++ [s])
          rw [ht, List.map_append]
          have hin : s.src.id ∈ (d ++ [s]).map (fun y => y.src.id) := by
            rw [List.map_append]
            exact List.mem_append_right _ (by simp)
          exact List.mem_append_left _ hin
        · refine ih (d ++ [s₀]) ?_
            (fun x hx => hrl x (List.mem_cons_of_mem _ hx)) ?_ s hsr
          · intro x hx
            rcases List.mem_append.mp hx with h | h
            · exact hdl x h
            · rw [List.mem_singleton.mp h]
              exact hrl s₀ (List.mem_cons_self _ _)
          · rw [List.map_append]
            refine List.Nodup.append hdnd (by simp) ?_
            intro a ha hb
            have hfn : d.find? (fun x => x.src.id == s₀.src.id) = none := by
              rcases hopt : d.find? (fun x => x.src.id == s₀.src.id) with _ | x
              · exact hopt
              · exact absurd (by rw [hopt]; rfl) hfound
            have hall := List.find?_eq_none.mp hfn
            obtain ⟨x, hx, rfl⟩ := List.mem_map.mp ha
            have hne : ¬ (x.src.id == s₀.src.id) = true := hall x hx
            simp only [List.map_cons, List.map_nil, List.mem_singleton] at hb
            exact hne (by simpa using hb)

/-- With pairwise-distinct ids, `ensureSourceDiversity` is a permutation
of its input: the first loop keeps a subsequence and the refill loop
restores every skipped entry. -/
theorem ensureSourceDiversity_perm (l : List Selected)
    (hnd : (l.map (fun s => s.src.id)).Nodup) :
    List.Perm (ensureSourceDiversity l) l := by
  unfold ensureSourceDiversity
  obtain ⟨d₁, hd₁, hd₁s⟩ := diversityFirstPass_shape l [] []
  rw [List.nil_append] at hd₁
  rw [hd₁]
  have hd₁l : ∀ x ∈ d₁, x ∈ l := fun x hx => hd₁s.subset hx
  have hd₁nd : (d₁.map (fun s => s.src.id)).Nodup := hnd.sublist (hd₁s.map _)
  obtain ⟨t₂, ht₂, ht₂s⟩ := diversityFill_shape l.length l d₁
  have hsubset : ∀ x ∈ diversityFill l.length l d₁, x ∈ l := by
    intro x hx
    rw [ht₂] at hx
    rcases List.mem_append.mp hx with h | h
    · exact hd₁l x h
    · exact ht₂s.subset h
  have hndres : ((diversityFill l.length l d₁).map
      (fun s => s.src.id)).Nodup :=
    diversityFill_ids_nodup l.length l d₁ hd₁nd
  have hndres₁ : (diversityFill l.length l d₁).Nodup :=
    hndres.of_map
  have hsp : List.Subperm (diversityFill l.length l d₁) l :=
    List.subperm_of_subset hndres₁ hsubset
  have hcov := diversityFill_covers l hnd l d₁ hd₁l (fun x hx => hx) hd₁nd
  have hidsub : ∀ a ∈ l.map (fun s => s.src.id),
      a ∈ (diversityFill l.length l d₁).map (fun s => s.src.id) := by
    intro a ha
    obtain ⟨s, hsl, rfl⟩ := List.mem_map.mp ha
    exact hcov s hsl
  have hsp₂ := List.subperm_of_subset hnd hidsub
  have hlen := hsp₂.length_le
  rw [List.length_map, List.length_map] at hlen
  exact hsp.perm_of_length_le hlen

/-- Truncation and final projection preserve a 4-long, id-distinct
selection. -/
theorem pick_post (AD : List Selected) (hlen : AD.length = 4)
    (hnd : (AD.map (fun s => s.src.id)).Nodup) :
    ((AD.take (2 + 2)).map (fun s =>
        Picked.mk s.src.id s.src.name s.side s.src.x s.src.y s.distSq
          s.src.category s.isFallback false)).length = 4 ∧
    (((AD.take (2 + 2)).map (fun s =>
        Picked.mk s.src.id s.src.name s.side s.src.x s.src.y s.distSq
          s.src.category s.isFallback false)).map (fun p => p.id)).Nodup := by
  have htake : AD.take (2 + 2) = AD := List.take_of_length_le (by omega)
  rw [htake]
  constructor
  · rw [List.length_map, hlen]
  · rw [List.map_map]
    exact hnd

/-- C1: for every bias coordinate in `[-1,1]²` and every catalog state
satisfying the data model's invariants (at least 4 active sources,
pairwise-distinct active ids, coordinates in `[-1,1]`), `pickSources`
under the default options returns exactly `friendlyCount + opposingCount
= 4` entries whose source ids are pairwise distinct: friendly and
opposing picks are disjoint by construction, and the origin-based
fill-remaining fallback always reaches the full count because every
in-range source lies within the search radius of the origin. -/
theorem pickSources_count_unique (catalog : List Source) (x y : ℚ)
    (hx : -1 ≤ x ∧ x ≤ 1) (hy : -1 ≤ y ∧ y ≤ 1)
    (hact : 4 ≤ (catalog.filter (fun s => s.active)).length)
    (hnd : ((catalog.filter (fun s => s.active)).map (fun s => s.id)).Nodup)
    (hcoord : ∀ s ∈ catalog, s.active = true →
      -1 ≤ s.x ∧ s.x ≤ 1 ∧ -1 ≤ s.y ∧ s.y ≤ 1) :
    (pickSources catalog (JVal.num x) (JVal.num y) {}).length = 4 ∧
    ((pickSources catalog (JVal.num x) (JVal.num y) {}).map
      (fun p => p.id)).Nodup := by
  have hne : catalog.isEmpty = false := by
    cases catalog with
    | nil => simp at hact
    | cons a t => rfl
  have hred : pickSources catalog (JVal.num x) (JVal.num y) {} =
      pickNumCore catalog x y {} := by
    show pickNum catalog x y {} = pickNumCore catalog x y {}
    unfold pickNum
    rw [hne]
    simp
  rw [hred]
  unfold pickNumCore
  dsimp only
  set F := findClosestSources catalog x y 2 [] none with hF
  set O := findClosestSources catalog (-x) (-y) 2
    (F.map (fun c => c.src.id)) none with hO
  set comb := F.map (fun c => Selected.mk c.src c.distSq .friendly false) ++
    O.map (fun c => Selected.mk c.src c.distSq .opposing false) with hcomb
  have hFlen : F.length ≤ 2 := by
    rw [hF, findClosestSources_length]
    exact Nat.min_le_left _ _
  have hOlen : O.length ≤ 2 := by
    rw [hO, findClosestSources_length]
    exact Nat.min_le_left _ _
  have hFnd : (F.map (fun c => c.src.id)).Nodup := by
    rw [hF]
    exact findClosestSources_ids_nodup catalog x y 2 [] none hnd
  have hOnd : (O.map (fun c => c.src.id)).Nodup := by
    rw [hO]
    exact findClosestSources_ids_nodup catalog (-x) (-y) 2 _ none hnd
  have hdisj : List.Disjoint (F.map (fun c => c.src.id))
      (O.map (fun c => c.src.id)) := by
    intro a haF haO
    obtain ⟨c, hcO, rfl⟩ := List.mem_map.mp haO
    rw [hO] at hcO
    exact (mem_findClosestSources catalog (-x) (-y) 2 _ none c hcO).2.2 haF
  have hcombIds : comb.map (fun s => s.src.id) =
      F.map (fun c => c.src.id) ++ O.map (fun c => c.src.id) := by
    rw [hcomb, List.map_append, List.map_map, List.map_map]
    rfl
  have hcombNd : (comb.map (fun s => s.src.id)).Nodup := by
    rw [hcombIds]
    exact List.Nodup.append hFnd hOnd hdisj
  have hcombLen : comb.length ≤ 4 := by
    rw [hcomb, List.length_append, List.length_map, List.length_map]
    omega
  set FB := findClosestSources catalog 0 0 (2 + 2 - comb.length)
    (comb.map (fun s => s.src.id)) none with hFB
  set AF := (if comb.length < 2 + 2 ∧ true = true then
      comb ++ FB.map (fun c => Selected.mk c.src c.distSq .neutral true)
    else comb) with hAF
  have hFBlen : comb.length < 2 + 2 → FB.length = 2 + 2 - comb.length := by
    intro hC
    rw [hFB, findClosestSources_length]
    have horig := candList_origin_length catalog
      (comb.map (fun s => s.src.id)) hnd hcoord
    rw [List.length_map] at horig
    omega
  have hFBnd : (FB.map (fun c => c.src.id)).Nodup := by
    rw [hFB]
    exact findClosestSources_ids_nodup catalog 0 0 _ _ none hnd
  have hFBdisj : List.Disjoint (comb.map (fun s => s.src.id))
      ((FB.map (fun c => Selected.mk c.src c.distSq .neutral true)).map
        (fun s => s.src.id)) := by
    intro a haC haFB
    rw [List.map_map] at haFB
    obtain ⟨c, hcFB, rfl⟩ := List.mem_map.mp haFB
    rw [hFB] at hcFB
    exact (mem_findClosestSources catalog 0 0 _ _ none c hcFB).2.2 haC
  have hAFlen : AF.length = 4 := by
    by_cases hC : comb.length < 2 + 2
    · rw [hAF, if_pos (⟨hC, rfl⟩ : comb.length < 2 + 2 ∧ true = true),
        List.length_append, List.length_map]
      have := hFBlen hC
      omega
    · rw [hAF, if_neg (fun h => hC h.1)]
      omega
  have hAFnd : (AF.map (fun s => s.src.id)).Nodup := by
    by_cases hC : comb.length < 2 + 2
    · rw [hAF, if_pos (⟨hC, rfl⟩ : comb.length < 2 + 2 ∧ true = true),
        List.map_append]
      refine List.Nodup.append hcombNd ?_ hFBdisj
      rw [List.map_map]
      exact hFBnd
    · rw [hAF, if_neg (fun h => hC h.1)]
      exact hcombNd
  rw [if_pos (⟨rfl, by omega⟩ : true = true ∧ AF.length > 1)]
  have hperm := ensureSourceDiversity_perm _ hAFnd
  exact pick_post _ (hperm.length_eq.trans hAFlen)
    (((hperm.map _).nodup_iff).mpr hAFnd)

unseal Rat.add Rat.mul Rat.sub Rat.ofScientific Rat.inv in
/-- Witness for C1: the built-in 6-source default catalog at the origin
yields 4 entries with pairwise-distinct ids. -/
theorem pickSources_count_unique_witness :
    (pickSources getDefaultSources (JVal.num 0) (JVal.num 0) {}).length = 4 ∧
    ((pickSources getDefaultSources (JVal.num 0) (JVal.num 0) {}).map
      (fun p => p.id)).Nodup :=
  pickSources_count_unique getDefaultSources 0 0 (by norm_num) (by norm_num)
    (by decide) (by decide) (by decide)

/-- Membership in the candidate list, characterised. -/
theorem mem_candList_iff (sources : List Source) (x y : ℚ)
    (excl : List String) (cf : Option String) (c : Candidate) :
    c ∈ candList sources x y excl cf ↔
      (c.src ∈ sources ∧ candOk excl cf c.src = true ∧
       c.distSq = calcDistSq x y c.src.x c.src.y ∧ c.distSq ≤ 4) := by
  unfold candList
  constructor
  · intro h
    have hq := (List.mem_filter.mp h).2
    have h1 := (List.mem_filter.mp h).1
    obtain ⟨s, hs, hc⟩ := List.mem_map.mp h1
    subst hc
    exact ⟨(List.mem_filter.mp hs).1, (List.mem_filter.mp hs).2, rfl,
      by simpa using hq⟩
  · rintro ⟨h1, h2, h3, h4⟩
    apply List.mem_filter.mpr
    refine ⟨?_, by simpa using h4⟩
    apply List.mem_map.mpr
    refine ⟨c.src, List.mem_filter.mpr ⟨h1, h2⟩, ?_⟩
    rw [← h3]

/-- The candidate filter forces activity. -/
theorem candOk_active (excl : List String) (cf : Option String) (s : Source)
    (h : candOk excl cf s = true) : s.active = true := by
  unfold candOk at h
  simp only [Bool.and_eq_true] at h
  exact h.2

/-- When the whole candidate list fits under the requested count, the
selection is a permutation of the candidate list. -/
theorem findClosestSources_perm_of_le (sources : List Source) (x y : ℚ)
    (n : Nat) (excl : List String) (cf : Option String)
    (h : (candList sources x y excl cf).length ≤ n) :
    List.Perm (findClosestSources sources x y n excl cf)
      (candList sources x y excl cf) := by
  unfold findClosestSources
  rw [List.take_of_length_le (by rw [List.length_insertionSort]; exact h)]
  exact List.perm_insertionSort _ _

/-- A point of `[-1,1]²` out of search range of an in-range bias point is
within range of the mirrored bias point. -/
theorem mirror_radius (x y sx sy : ℚ)
    (hx1 : -1 ≤ x) (hx2 : x ≤ 1) (hy1 : -1 ≤ y) (hy2 : y ≤ 1)
    (hsx1 : -1 ≤ sx) (hsx2 : sx ≤ 1) (hsy1 : -1 ≤ sy) (hsy2 : sy ≤ 1)
    (h : ¬ calcDistSq x y sx sy ≤ 4) : calcDistSq (-x) (-y) sx sy ≤ 4 := by
  unfold calcDistSq at *
  push_neg at h
  nlinarith [mul_nonneg (by linarith : (0:ℚ) ≤ 1 - x)
      (by linarith : (0:ℚ) ≤ 1 + x),
    mul_nonneg (by linarith : (0:ℚ) ≤ 1 - y)
      (by linarith : (0:ℚ) ≤ 1 + y),
    mul_nonneg (by linarith : (0:ℚ) ≤ 1 - sx)
      (by linarith : (0:ℚ) ≤ 1 + sx),
    mul_nonneg (by linarith : (0:ℚ) ≤ 1 - sy)
      (by linarith : (0:ℚ) ≤ 1 + sy)]

/-- For an active catalog source, its id appears among the candidates of
a category-free search exactly when the source is not excluded and within
range (distinct active ids let the id stand for the source). -/
theorem id_mem_candList (sources : List Source) (x y : ℚ)
    (excl : List String)
    (hnd : ((sources.filter (fun s => s.active)).map (fun s => s.id)).Nodup)
    (a : Source) (ha : a ∈ sources) (hact : a.active = true) :
    (a.id ∈ (candList sources x y excl none).map (fun c => c.src.id)) ↔
      (excl.contains a.id = false ∧ calcDistSq x y a.x a.y ≤ 4) := by
  constructor
  · intro h
    obtain ⟨c, hc, hid⟩ := List.mem_map.mp h
    obtain ⟨h1, h2, h3, h4⟩ := (mem_candList_iff sources x y excl none c).mp hc
    have hcA : c.src ∈ sources.filter (fun s => s.active) :=
      List.mem_filter.mpr ⟨h1, by simpa using candOk_active excl none c.src h2⟩
    have haA : a ∈ sources.filter (fun s => s.active) :=
      List.mem_filter.mpr ⟨ha, by simpa using hact⟩
    have heq : c.src = a := List.inj_on_of_nodup_map hnd hcA haA hid
    rw [heq] at h2 h3
    constructor
    · unfold candOk at h2
      simp only [Bool.and_eq_true, Bool.not_eq_eq_eq_not, Bool.not_true] at h2
      exact h2.1.1
    · rw [← h3]
      exact h4
  · rintro ⟨hc1, hc2⟩
    apply List.mem_map.mpr
    refine ⟨Candidate.mk a (calcDistSq x y a.x a.y), ?_, rfl⟩
    apply (mem_candList_iff sources x y excl none _).mpr
    refine ⟨ha, ?_, rfl, hc2⟩
    unfold candOk
    simp only [hact, Bool.and_true, Bool.and_eq_true, Bool.not_eq_eq_eq_not,
      Bool.not_true]
    exact hc1

/-- C2 (amended): with exactly 2 active sources (under the data model's
invariants) and the default `friendlyCount = 2, opposingCount = 2`,
`pickSources` returns a list of length 2 — the whole active catalog — in
which NO entry is marked `isFallback`: every active source is captured by
the friendly or the mirrored opposing search (a source out of range of
one bias point is in range of its mirror), so the neutral fill-remaining
fallback finds no unused source and contributes nothing. -/
theorem pickSources_twoActive (catalog : List Source) (x y : ℚ)
    (hx : -1 ≤ x ∧ x ≤ 1) (hy : -1 ≤ y ∧ y ≤ 1)
    (hact : (catalog.filter (fun s => s.active)).length = 2)
    (hnd : ((catalog.filter (fun s => s.active)).map (fun s => s.id)).Nodup)
    (hcoord : ∀ s ∈ catalog, s.active = true →
      -1 ≤ s.x ∧ s.x ≤ 1 ∧ -1 ≤ s.y ∧ s.y ≤ 1) :
    (pickSources catalog (JVal.num x) (JVal.num y) {}).length = 2 ∧
    ∀ p ∈ pickSources catalog (JVal.num x) (JVal.num y) {},
      p.isFallback = false := by
  have hne : catalog.isEmpty = false := by
    cases catalog with
    | nil => simp at hact
    | cons a t => rfl
  have hred : pickSources catalog (JVal.num x) (JVal.num y) {} =
      pickNumCore catalog x y {} := by
    show pickNum catalog x y {} = pickNumCore catalog x y {}
    unfold pickNum
    rw [hne]
    simp
  rw [hred]
  unfold pickNumCore
  dsimp only
  set F := findClosestSources catalog x y 2 [] none with hF
  set O := findClosestSources catalog (-x) (-y) 2
    (F.map (fun c => c.src.id)) none with hO
  set comb := F.map (fun c => Selected.mk c.src c.distSq .friendly false) ++
    O.map (fun c => Selected.mk c.src c.distSq .opposing false) with hcomb
  set A := catalog.filter (fun s => s.active) with hA
  set P := (fun (s : Source) => decide (calcDistSq x y s.x s.y ≤ 4)) with hP
  set Pm := (fun (s : Source) => decide (calcDistSq (-x) (-y) s.x s.y ≤ 4)) with hPm
  -- the friendly candidate list counts the active in-range sources
  have hbaseF : catalog.filter (candOk [] none) = A := by
    rw [hA]
    exact List.filter_congr (fun s _ => by unfold candOk; simp)
  have hcandF : (candList catalog x y [] none).length =
      (A.filter P).length := by
    unfold candList
    rw [hbaseF, ← List.countP_eq_length_filter, List.countP_map,
      ← List.countP_eq_length_filter]
    rfl
  have hcandF_le : (candList catalog x y [] none).length ≤ 2 := by
    rw [hcandF]
    calc (A.filter P).length ≤ A.length := List.length_filter_le _ _
      _ = 2 := hact
  have hFperm : List.Perm F (candList catalog x y [] none) := by
    rw [hF]
    exact findClosestSources_perm_of_le catalog x y 2 [] none hcandF_le
  have hFlen : F.length = (A.filter P).length := by
    rw [hFperm.length_eq, hcandF]
  -- id membership in the friendly pick is exactly the in-range test
  have hFcont : ∀ a ∈ A, (F.map (fun c => c.src.id)).contains a.id = P a := by
    intro a haA
    have haS : a ∈ catalog := (List.mem_filter.mp haA).1
    have haAct : a.active = true := by
      simpa using (List.mem_filter.mp haA).2
    have hiff : a.id ∈ F.map (fun c => c.src.id) ↔ P a = true := by
      rw [List.Perm.mem_iff (hFperm.map _),
        id_mem_candList catalog x y [] hnd a haS haAct]
      constructor
      · rintro ⟨-, h⟩
        exact decide_eq_true h
      · intro h
        exact ⟨rfl, of_decide_eq_true h⟩
    cases hPa : P a with
    | true => simpa using hiff.mpr hPa
    | false =>
      cases hc : (F.map (fun c => c.src.id)).contains a.id with
      | false => rfl
      | true =>
        have hmem : a.id ∈ F.map (fun c => c.src.id) := by simpa using hc
        rw [hiff.mp hmem] at hPa
        cases hPa
  -- the opposing candidate list counts exactly the out-of-range sources
  have hsplitO : catalog.filter (candOk (F.map (fun c => c.src.id)) none) =
      A.filter (fun s => !((F.map (fun c => c.src.id)).contains s.id)) := by
    rw [hA, ← filter_candOk_eq catalog (F.map (fun c => c.src.id)) none]
    exact List.filter_congr (fun a _ => by simp)
  have hcandO : (candList catalog (-x) (-y)
      (F.map (fun c => c.src.id)) none).length =
      (A.filter (fun s => !(P s))).length := by
    unfold candList
    rw [hsplitO, ← List.countP_eq_length_filter, List.countP_map]
    have hstep : List.countP
        ((fun c => decide (c.distSq ≤ 4)) ∘
          (fun s => Candidate.mk s (calcDistSq (-x) (-y) s.x s.y)))
        (A.filter (fun s => !((F.map (fun c => c.src.id)).contains s.id)))
        = ((A.filter (fun s =>
            !((F.map (fun c => c.src.id)).contains s.id))).filter Pm).length :=
      List.countP_eq_length_filter _ _
    rw [hstep, List.filter_filter]
    rw [← List.countP_eq_length_filter, ← List.countP_eq_length_filter]
    apply List.countP_congr
    intro a haA
    have hcont := hFcont a haA
    have haS : a ∈ catalog := (List.mem_filter.mp haA).1
    have haAct : a.active = true := by
      simpa using (List.mem_filter.mp haA).2
    obtain ⟨hb1, hb2, hb3, hb4⟩ := hcoord a haS haAct
    constructor
    · intro h
      rw [Bool.and_eq_true] at h
      rw [hcont] at h
      simp only [Bool.not_eq_eq_eq_not, Bool.not_true] at h ⊢
      exact h.2
    · intro h
      simp only [Bool.not_eq_eq_eq_not, Bool.not_true] at h
      rw [Bool.and_eq_true, hcont]
      refine ⟨?_, by simp [h]⟩
      rw [hPm]
      apply decide_eq_true
      apply mirror_radius x y a.x a.y hx.1 hx.2 hy.1 hy.2 hb1 hb2 hb3 hb4
      intro hle
      rw [hP] at h
      simp only [decide_eq_false_iff_not] at h
      exact h hle
  have hcandO_le : (candList catalog (-x) (-y)
      (F.map (fun c => c.src.id)) none).length ≤ 2 := by
    rw [hcandO]
    calc (A.filter (fun s => !(P s))).length ≤ A.length :=
        List.length_filter_le _ _
      _ = 2 := hact
  have hOperm : List.Perm O (candList catalog (-x) (-y)
      (F.map (fun c => c.src.id)) none) := by
    rw [hO]
    exact findClosestSources_perm_of_le catalog (-x) (-y) 2 _ none hcandO_le
  have hOlen : O.length = (A.filter (fun s => !(P s))).length := by
    rw [hOperm.length_eq, hcandO]
  -- the combined pick covers the whole active catalog
  have hcombLen2 : comb.length = 2 := by
    rw [hcomb, List.length_append, List.length_map, List.length_map, hFlen,
      hOlen]
    have := length_filter_split A P
    omega
  -- ids of the combined pick, and nodup
  have hFnd : (F.map (fun c => c.src.id)).Nodup := by
    rw [hF]
    exact findClosestSources_ids_nodup catalog x y 2 [] none hnd
  have hOnd : (O.map (fun c => c.src.id)).Nodup := by
    rw [hO]
    exact findClosestSources_ids_nodup catalog (-x) (-y) 2 _ none hnd
  have hdisj : List.Disjoint (F.map (fun c => c.src.id))
      (O.map (fun c => c.src.id)) := by
    intro a haF haO
    obtain ⟨c, hcO, rfl⟩ := List.mem_map.mp haO
    rw [hO] at hcO
    exact (mem_findClosestSources catalog (-x) (-y) 2 _ none c hcO).2.2 haF
  have hcombIds : comb.map (fun s => s.src.id) =
      F.map (fun c => c.src.id) ++ O.map (fun c => c.src.id) := by
    rw [hcomb, List.map_append, List.map_map, List.map_map]
    rfl
  have hcombNd : (comb.map (fun s => s.src.id)).Nodup := by
    rw [hcombIds]
    exact List.Nodup.append hFnd hOnd hdisj
  -- every active id is already used, so the origin fallback is empty
  have hOcont : ∀ a ∈ A, P a = false →
      a.id ∈ O.map (fun c => c.src.id) := by
    intro a haA hPa
    have haS : a ∈ catalog := (List.mem_filter.mp haA).1
    have haAct : a.active = true := by
      simpa using (List.mem_filter.mp haA).2
    obtain ⟨hb1, hb2, hb3, hb4⟩ := hcoord a haS haAct
    rw [List.Perm.mem_iff (hOperm.map _),
      id_mem_candList catalog (-x) (-y) (F.map (fun c => c.src.id)) hnd a
        haS haAct]
    refine ⟨by rw [hFcont a haA]; exact hPa, ?_⟩
    apply mirror_radius x y a.x a.y hx.1 hx.2 hy.1 hy.2 hb1 hb2 hb3 hb4
    intro hle
    rw [hP] at hPa
    simp only [decide_eq_false_iff_not] at hPa
    exact hPa hle
  have hbaseFB : catalog.filter
      (candOk (comb.map (fun s => s.src.id)) none) = [] := by
    rw [← filter_candOk_eq catalog (comb.map (fun s => s.src.id)) none]
    apply List.filter_eq_nil_iff.mpr
    intro a haA hpred
    simp only [Bool.and_eq_true, Bool.not_eq_eq_eq_not, Bool.not_true] at hpred
    have hidmem : a.id ∈ comb.map (fun s => s.src.id) := by
      rw [hcombIds, List.mem_append]
      cases hPa : P a with
      | true =>
        left
        have := hFcont a haA
        rw [hPa] at this
        simpa using this
      | false =>
        right
        exact hOcont a haA hPa
    have : (comb.map (fun s => s.src.id)).contains a.id = true := by
      simpa using hidmem
    rw [this] at hpred
    cases hpred.1
  have hcandFB : (candList catalog 0 0
      (comb.map (fun s => s.src.id)) none).length = 0 := by
    unfold candList
    rw [hbaseFB]
    rfl
  set FB := findClosestSources catalog 0 0 (2 + 2 - comb.length)
    (comb.map (fun s => s.src.id)) none with hFB
  have hFBnil : FB = [] := by
    apply List.length_eq_zero.mp
    rw [hFB, findClosestSources_length, hcandFB]
    omega
  set AF := (if comb.length < 2 + 2 ∧ true = true then
      comb ++ FB.map (fun c => Selected.mk c.src c.distSq .neutral true)
    else comb) with hAF
  have hAFeq : AF = comb := by
    rw [hAF, if_pos (⟨by omega, rfl⟩ : comb.length < 2 + 2 ∧ true = true),
      hFBnil]
    simp
  have hAFnd : (AF.map (fun s => s.src.id)).Nodup := by
    rw [hAFeq]
    exact hcombNd
  rw [if_pos (⟨rfl, by rw [hAFeq]; omega⟩ : true = true ∧ AF.length > 1)]
  have hperm := ensureSourceDiversity_perm _ hAFnd
  have hADlen : (ensureSourceDiversity AF).length = 2 := by
    rw [hperm.length_eq, hAFeq, hcombLen2]
  have htake : (ensureSourceDiversity AF).take (2 + 2) =
      ensureSourceDiversity AF :=
    List.take_of_length_le (by omega)
  rw [htake]
  constructor
  · rw [List.length_map, hADlen]
  · intro p hp
    obtain ⟨s, hsAD, rfl⟩ := List.mem_map.mp hp
    have hsAF : s ∈ AF := hperm.subset hsAD
    rw [hAFeq, hcomb] at hsAF
    rcases List.mem_append.mp hsAF with h | h
    · obtain ⟨c, -, rfl⟩ := List.mem_map.mp h
      rfl
    · obtain ⟨c, -, rfl⟩ := List.mem_map.mp h
      rfl

unseal Rat.add Rat.mul Rat.sub Rat.ofScientific Rat.inv in
/-- Witness for C2 (amended) at a concrete 2-source catalog: the result
has length 2 and no fallback-marked entry. -/
theorem pickSources_twoActive_witness :
    (pickSources [⟨"a", "Alpha", 0, 0, "general", true⟩,
        ⟨"b", "Beta", 1/10, 0, "general", true⟩]
      (JVal.num 0) (JVal.num 0) {}).length = 2 ∧
    ∀ p ∈ pickSources [⟨"a", "Alpha", 0, 0, "general", true⟩,
        ⟨"b", "Beta", 1/10, 0, "general", true⟩]
      (JVal.num 0) (JVal.num 0) {}, p.isFallback = false :=
  pickSources_twoActive [⟨"a", "Alpha", 0, 0, "general", true⟩,
      ⟨"b", "Beta", 1/10, 0, "general", true⟩] 0 0
    (by norm_num) (by norm_num) (by decide) (by decide) (by decide)

unseal Rat.add Rat.mul Rat.sub Rat.ofScientific Rat.inv in
/-- C2 counterexample: the claim as stated is false on the code — with
exactly 2 active sources and the default counts, `pickSources` returns 2
entries (not 4) and 0 of them (not 2) are marked `isFallback`: the
opposing search excludes the already-used ids and the origin fallback
finds no unused source, so nothing pads the result to 4. -/
theorem pickSources_twoSource_counterexample :
    ¬ ((pickSources [⟨"a", "Alpha", 0, 0, "general", true⟩,
          ⟨"b", "Beta", 1/10, 0, "general", true⟩]
        (JVal.num 0) (JVal.num 0) {}).length = 4 ∧
       ((pickSources [⟨"a", "Alpha", 0, 0, "general", true⟩,
          ⟨"b", "Beta", 1/10, 0, "general", true⟩]
        (JVal.num 0) (JVal.num 0) {}).filter
          (fun p => p.isFallback)).length = 2) := by
  intro h
  have := h.1
  revert this
  decide

end NewsCore
